import Mathlib

/-!
Verification of the Jenkins MCP server's API client & dispatch layer.

Shallow embedding of the TypeScript source:
- JS strings are modelled as Lean `String` / `List Char`;
- JS `String.prototype.split` (non-empty string separator) is `splitSeq`;
- JS `Number.parseInt(s, 10)` is `jsParseInt10` (`none` models `NaN`);
- fallible code returns `Except`;
- the HTTP layer is an oracle parameter: a function supplying the remote
  server's response, so that theorems quantify over all server behaviours.
-/

deriving instance DecidableEq for Except

namespace JenkinsMCP

/-! ## JS string primitives -/

/-- JS whitespace recognised by `trim` / `parseInt` (WhiteSpace ∪ LineTerminator). -/
def isJsWhitespace (c : Char) : Bool :=
  c == ' ' || c == '\t' || c == '\n' || c == '\r' ||
  c == Char.ofNat 0x0b || c == Char.ofNat 0x0c || c == Char.ofNat 0xa0 ||
  c == Char.ofNat 0x2028 || c == Char.ofNat 0x2029 || c == Char.ofNat 0xfeff

/-- Fuel-indexed worker for `splitSeq`; fuel is an upper bound on the input
length, so the `0, s` fallback is never reached on the intended inputs. -/
def splitSeqAux (sep : List Char) : Nat → List Char → List (List Char)
  | _, [] => [[]]
  | 0, s => [s]
  | fuel + 1, c :: rest =>
    if sep ≠ [] ∧ sep.isPrefixOf (c :: rest) then
      [] :: splitSeqAux sep fuel ((c :: rest).drop sep.length)
    else
      match splitSeqAux sep fuel rest with
      | r :: rs => (c :: r) :: rs
      | [] => [[c]]

/-- JS `s.split(sep)` for a non-empty string separator `sep`: leftmost,
non-overlapping occurrences of `sep` delimit the segments. -/
def splitSeq (sep s : List Char) : List (List Char) :=
  splitSeqAux sep s.length s

/-- Decimal digit accumulator for `jsParseInt10`: consumes the longest leading
digit run; `none` when no digit was seen (JS `NaN`). -/
def parseDigits : Nat → Bool → List Char → Option Nat
  | acc, seen, [] => if seen then some acc else none
  | acc, seen, c :: rest =>
    if '0' ≤ c ∧ c ≤ '9' then
      parseDigits (acc * 10 + (c.toNat - 48)) true rest
    else if seen then some acc else none

/-- JS `Number.parseInt(s, 10)`: skip leading whitespace, optional sign,
longest leading digit run; `none` models `NaN`. (Modelled with exact integers;
the float rounding of very large results is irrelevant to the claims.) -/
def jsParseInt10 (s : List Char) : Option Int :=
  match s.dropWhile isJsWhitespace with
  | '-' :: rest => (parseDigits 0 false rest).map (fun n => -(n : Int))
  | '+' :: rest => (parseDigits 0 false rest).map (fun n => (n : Int))
  | l => (parseDigits 0 false l).map (fun n => (n : Int))

/-! ## C1 — `buildItem` Location-header handling
Source: `src/src/client/apis/items-api.ts`, `parseQueueIdFromLocation`
(lines 165-174) and the response handling in `ItemsApi.buildItem`
(lines 115-136). -/

/-- Error text thrown for an unusable queue id (items-api.ts line 170). -/
def invalidQueueIdMsg (location : List Char) : String :=
  "Jenkins returned an invalid queue id in Location header: \"" ++
    String.mk location ++ "\"."

/-- Error text thrown when the Location header is absent (items-api.ts line 130). -/
def missingLocationMsg : String :=
  "Jenkins did not return a queue location (Location header missing) for build request."

/-- JS `parts.slice(-2, -1)[0]`: the second-to-last element, `undefined`
(here `none`) when fewer than two elements exist. -/
def sliceSecondToLast (parts : List (List Char)) : Option (List Char) :=
  if 2 ≤ parts.length then parts[parts.length - 2]? else none

/-- `parseQueueIdFromLocation` (items-api.ts lines 165-174):
`location.split('/')`, take the second-to-last segment, `parseInt` it, and
reject `NaN` / negative results. `Number.isInteger` is always true for a
non-`NaN` `parseInt` result, so it imposes no extra condition. -/
def parseQueueIdFromLocation (location : List Char) : Except String Nat :=
  let idSegment := sliceSecondToLast (splitSeq ['/'] location)
  let queueId : Option Int :=
    match idSegment with
    | some s => jsParseInt10 s
    | none => none
  match queueId with
  | none => .error (invalidQueueIdMsg location)
  | some q => if q < 0 then .error (invalidQueueIdMsg location) else .ok q.toNat

/-- The response-handling tail of `ItemsApi.buildItem` (items-api.ts lines
127-135): `location` is the response's Location header (`none` when absent;
JS also treats the empty string as absent via its falsiness check). -/
def buildItemFromResponse (location : Option (List Char)) : Except String Nat :=
  match location with
  | none => .error missingLocationMsg
  | some l =>
    if l = [] then .error missingLocationMsg
    else parseQueueIdFromLocation l

/-- The Location header's second-to-last `/`-separated segment parses (JS
`parseInt`) as a non-negative integer. -/
def parsesAsNonNegative (loc : List Char) : Prop :=
  ∃ seg n, sliceSecondToLast (splitSeq ['/'] loc) = some seg ∧
    jsParseInt10 seg = some n ∧ 0 ≤ n

/-- C1: for every response to `buildItem`'s trigger POST — if the `Location`
header's second-to-last `/`-separated segment parses as a non-negative
integer `n`, `buildItem` returns `n`; if the header is missing, it fails with
the protocol error for a missing queue location; if the extracted segment does
not parse as a non-negative integer, it fails with a protocol error. -/
theorem buildItem_location_contract :
    (buildItemFromResponse none = .error missingLocationMsg) ∧
    (∀ (loc seg : List Char) (n : Int),
      sliceSecondToLast (splitSeq ['/'] loc) = some seg →
      jsParseInt10 seg = some n → 0 ≤ n →
      buildItemFromResponse (some loc) = .ok n.toNat) ∧
    (∀ loc : List Char, ¬ parsesAsNonNegative loc →
      ∃ e, buildItemFromResponse (some loc) = .error e) := by
  refine ⟨rfl, ?_, ?_⟩
  · intro loc seg n hseg hparse hn
    have hne : loc ≠ [] := by
      intro e
      subst e
      simp [splitSeq, splitSeqAux, sliceSecondToLast] at hseg
    simp only [buildItemFromResponse, if_neg hne, parseQueueIdFromLocation, hseg, hparse]
    rw [if_neg (by omega)]
  · intro loc hnot
    by_cases hne : loc = []
    · exact ⟨missingLocationMsg, by simp [buildItemFromResponse, hne]⟩
    · cases hs : sliceSecondToLast (splitSeq ['/'] loc) with
      | none =>
        exact ⟨invalidQueueIdMsg loc,
          by simp only [buildItemFromResponse, if_neg hne, parseQueueIdFromLocation, hs]⟩
      | some seg =>
        cases hp : jsParseInt10 seg with
        | none =>
          exact ⟨invalidQueueIdMsg loc,
            by simp only [buildItemFromResponse, if_neg hne, parseQueueIdFromLocation, hs, hp]⟩
        | some q =>
          by_cases hq : q < 0
          · exact ⟨invalidQueueIdMsg loc,
              by simp only [buildItemFromResponse, if_neg hne, parseQueueIdFromLocation, hs, hp,
                if_pos hq]⟩
          · exact absurd ⟨seg, q, hs, hp, by omega⟩ hnot

/-- Witness for C1 at the spec's concrete inputs: `.../job/foo/queue/item/42/`
yields queue id 42, and `.../queue/item/notanumber/` fails. -/
theorem buildItem_location_contract_witness :
    buildItemFromResponse (some "http://j/job/foo/queue/item/42/".toList) =
      .ok ((42 : Int)).toNat ∧
    (∃ e, buildItemFromResponse (some "http://j/queue/item/notanumber/".toList) = .error e) := by
  refine ⟨buildItem_location_contract.2.1 _ "42".toList 42 (by decide) (by decide) (by decide),
    buildItem_location_contract.2.2 _ ?_⟩
  rintro ⟨seg, n, hs, hp, -⟩
  rw [show sliceSecondToLast (splitSeq ['/'] "http://j/queue/item/notanumber/".toList) =
      some "notanumber".toList from by decide] at hs
  cases hs
  rw [show jsParseInt10 "notanumber".toList = none from by decide] at hp
  cases hp

/-! ## C4 — `encodeJobName` round-trip
Source: `encodeJobName` in the path utilities:
`fullName.split('/').map(encodeURIComponent).join('/job/')`. -/

/-- Uppercase hex digit for `n < 16`, as emitted by `encodeURIComponent`. -/
def toHexDigit (n : Nat) : Char :=
  if n < 10 then Char.ofNat (48 + n) else Char.ofNat (55 + n)

/-- Hex digit value (upper- or lowercase), `none` for a non-hex character. -/
def fromHexDigit (c : Char) : Option Nat :=
  if 48 ≤ c.toNat ∧ c.toNat ≤ 57 then some (c.toNat - 48)
  else if 65 ≤ c.toNat ∧ c.toNat ≤ 70 then some (c.toNat - 55)
  else if 97 ≤ c.toNat ∧ c.toNat ≤ 102 then some (c.toNat - 87)
  else none

/-- UTF-8 byte sequence of a code point. -/
def utf8Bytes (n : Nat) : List Nat :=
  if n < 0x80 then [n]
  else if n < 0x800 then [0xC0 + n / 64, 0x80 + n % 64]
  else if n < 0x10000 then [0xE0 + n / 4096, 0x80 + n / 64 % 64, 0x80 + n % 64]
  else [0xF0 + n / 262144, 0x80 + n / 4096 % 64, 0x80 + n / 64 % 64, 0x80 + n % 64]

/-- The characters `encodeURIComponent` leaves unescaped
(ECMA-262 uriUnescaped: alphanumeric and `- _ . ! ~ * ' ( )`). -/
def isUnreservedURIChar (c : Char) : Bool :=
  (65 ≤ c.toNat && c.toNat ≤ 90) || (97 ≤ c.toNat && c.toNat ≤ 122) ||
  (48 ≤ c.toNat && c.toNat ≤ 57) ||
  c == '-' || c == '_' || c == '.' || c == '!' || c == '~' || c == '*' ||
  c == Char.ofNat 39 || c == '(' || c == ')'

/-- Percent-escape of one byte: `%XY` with uppercase hex. -/
def encodeByte (b : Nat) : List Char := ['%', toHexDigit (b / 16), toHexDigit (b % 16)]

/-- JS `encodeURIComponent` on a single character: unreserved characters pass
through, everything else becomes the percent-escapes of its UTF-8 bytes. -/
def encodeURIComponentChar (c : Char) : List Char :=
  if isUnreservedURIChar c then [c]
  else ((utf8Bytes c.toNat).map encodeByte).flatten

/-- JS `encodeURIComponent` over a whole string. -/
def encodeURIComponent (s : List Char) : List Char :=
  (s.map encodeURIComponentChar).flatten

/-- The literal separator `'/job/'` used by `encodeJobName`. -/
def jobSep : List Char := ['/', 'j', 'o', 'b', '/']

/-- JS `Array.prototype.join(sep)` over char-list segments. -/
def joinSep (sep : List Char) : List (List Char) → List Char
  | [] => []
  | [x] => x
  | x :: xs => x ++ sep ++ joinSep sep xs

/-- `encodeJobName` (paths utility, lines 128-130):
`fullName.split('/').map(encodeURIComponent).join('/job/')`. -/
def encodeJobName (fullName : List Char) : List Char :=
  joinSep jobSep ((splitSeq ['/'] fullName).map encodeURIComponent)

/-- Modelled from the spec: one step of percent-decoding. `%XY` becomes the
byte `0xXY`, any other character its code point; a malformed escape stops
decoding (JS `decodeURIComponent` throws there — never reached on encoder
output). Returns the decoded unit and the remaining input. -/
def percentDecodeOne : List Char → Option (Nat × List Char)
  | [] => none
  | c :: rest =>
    if c = '%' then
      match rest.head?, (rest.drop 1).head? with
      | some h1, some h2 =>
        match fromHexDigit h1, fromHexDigit h2 with
        | some a, some b => some (16 * a + b, rest.drop 2)
        | _, _ => none
      | _, _ => none
    else some (c.toNat, rest)

/-- One step of UTF-8 decoding: decodes the leading 1–4 byte sequence to a
code point; `none` on malformed input (never reached on encoder output). -/
def utf8DecodeOne : List Nat → Option (Nat × List Nat)
  | [] => none
  | b :: rest =>
    if b < 0x80 then some (b, rest)
    else if 0xC0 ≤ b ∧ b < 0xE0 then
      match rest.head? with
      | some b1 =>
        if 0x80 ≤ b1 ∧ b1 < 0xC0 then
          some ((b - 0xC0) * 64 + (b1 - 0x80), rest.drop 1)
        else none
      | none => none
    else if 0xE0 ≤ b ∧ b < 0xF0 then
      match rest.head?, (rest.drop 1).head? with
      | some b1, some b2 =>
        if (0x80 ≤ b1 ∧ b1 < 0xC0) ∧ (0x80 ≤ b2 ∧ b2 < 0xC0) then
          some ((b - 0xE0) * 4096 + (b1 - 0x80) * 64 + (b2 - 0x80), rest.drop 2)
        else none
      | _, _ => none
    else if 0xF0 ≤ b ∧ b < 0xF8 then
      match rest.head?, (rest.drop 1).head?, (rest.drop 2).head? with
      | some b1, some b2, some b3 =>
        if (0x80 ≤ b1 ∧ b1 < 0xC0) ∧ (0x80 ≤ b2 ∧ b2 < 0xC0) ∧ (0x80 ≤ b3 ∧ b3 < 0xC0) then
          some ((b - 0xF0) * 262144 + (b1 - 0x80) * 4096 + (b2 - 0x80) * 64 + (b3 - 0x80),
            rest.drop 3)
        else none
      | _, _, _ => none
    else none

/-- Fuel-indexed streaming decoder: repeatedly applies `step` until the input
is exhausted, the step fails, or fuel (an upper bound on the number of steps,
e.g. the input length) runs out. -/
def decodeLoop {α β : Type} (step : List α → Option (β × List α)) :
    Nat → List α → List β
  | 0, _ => []
  | fuel + 1, s =>
    match step s with
    | some (b, rest') => b :: decodeLoop step fuel rest'
    | none => []

/-- Modelled from the spec: percent-decoding of a segment to its byte values. -/
def percentDecodeBytes (s : List Char) : List Nat :=
  decodeLoop percentDecodeOne s.length s

/-- UTF-8 decoding of a byte sequence to code points. -/
def utf8DecodeBytes (l : List Nat) : List Nat :=
  decodeLoop utf8DecodeOne l.length l

/-- Modelled from the spec: full percent-decoding of one path segment. -/
def percentDecode (s : List Char) : List Char :=
  (utf8DecodeBytes (percentDecodeBytes s)).map Char.ofNat

example : encodeJobName "teamA/app".toList = "teamA/job/app".toList := by decide
example : encodeJobName "a b/c%d".toList = "a%20b/job/c%25d".toList := by decide

lemma isPrefixOf_append_self (l t : List Char) : l.isPrefixOf (l ++ t) = true := by
  induction l with
  | nil => simp [List.isPrefixOf]
  | cons a as ih => simp [List.isPrefixOf, ih]

lemma isPrefixOf_cons_ne (c0 c : Char) (sep' s : List Char) (h : c0 ≠ c) :
    (c0 :: sep').isPrefixOf (c :: s) = false := by
  simp [List.isPrefixOf, h]

lemma splitSeqAux_nil (sep : List Char) (fuel : Nat) : splitSeqAux sep fuel [] = [[]] := by
  cases fuel <;> rfl

lemma splitSeqAux_ne_nil (sep : List Char) :
    ∀ (fuel : Nat) (s : List Char), splitSeqAux sep fuel s ≠ [] := by
  intro fuel
  induction fuel with
  | zero => intro s; cases s <;> simp [splitSeqAux]
  | succ f ih =>
    intro s
    cases s with
    | nil => simp [splitSeqAux]
    | cons c rest =>
      simp only [splitSeqAux]
      split
      · simp
      · cases h : splitSeqAux sep f rest <;> simp

/-- `splitSeq` never returns the empty list of segments. -/
lemma splitSeq_ne_nil (sep s : List Char) : splitSeq sep s ≠ [] :=
  splitSeqAux_ne_nil sep s.length s

/-- A chunk containing no occurrence of the separator's first character is
scanned without finding a separator. -/
lemma splitSeqAux_no_sep (c0 : Char) (sep' : List Char) :
    ∀ (fuel : Nat) (u : List Char), u.length ≤ fuel → c0 ∉ u →
      splitSeqAux (c0 :: sep') fuel u = [u] := by
  intro fuel
  induction fuel with
  | zero =>
    intro u hu _
    cases u with
    | nil => exact splitSeqAux_nil _ _
    | cons c rest => simp at hu
  | succ f ih =>
    intro u hu hc
    cases u with
    | nil => exact splitSeqAux_nil _ _
    | cons c rest =>
      have hcne : c0 ≠ c := fun e => hc (e ▸ List.mem_cons_self c rest)
      simp only [splitSeqAux]
      rw [if_neg (by
        rintro ⟨-, hpre⟩
        rw [isPrefixOf_cons_ne c0 c sep' rest hcne] at hpre
        exact Bool.false_ne_true hpre)]
      rw [ih rest (by simp at hu; omega) (fun m => hc (List.mem_cons_of_mem c m))]

/-- Scanning `u ++ sep ++ t` where `u` avoids the separator's first character
emits `u` as one segment and continues after the separator with one fuel step
spent on the separator. -/
lemma splitSeqAux_block (c0 : Char) (sep' : List Char) :
    ∀ (u : List Char) (fuel : Nat) (t : List Char),
      (u ++ (c0 :: sep') ++ t).length ≤ fuel → c0 ∉ u →
      splitSeqAux (c0 :: sep') fuel (u ++ (c0 :: sep') ++ t) =
        u :: splitSeqAux (c0 :: sep') (fuel - u.length - 1) t := by
  intro u
  induction u with
  | nil =>
    intro fuel t hlen _
    obtain ⟨f, rfl⟩ : ∃ f, fuel = f + 1 := ⟨fuel - 1, by simp at hlen; omega⟩
    simp only [List.nil_append, List.cons_append]
    simp only [splitSeqAux]
    rw [if_pos ⟨by simp, by
      have := isPrefixOf_append_self (c0 :: sep') t
      simpa using this⟩]
    have hdrop : (c0 :: (sep' ++ t)).drop (c0 :: sep').length = t := by
      have := List.drop_left (c0 :: sep') t
      simpa using this
    rw [hdrop]
    simp
  | cons c u' ih =>
    intro fuel t hlen hc
    obtain ⟨f, rfl⟩ : ∃ f, fuel = f + 1 := ⟨fuel - 1, by simp at hlen; omega⟩
    have hcne : c0 ≠ c := fun e => hc (e ▸ List.mem_cons_self c u')
    simp only [List.cons_append]
    simp only [splitSeqAux]
    rw [if_neg (by
      rintro ⟨-, hpre⟩
      rw [isPrefixOf_cons_ne c0 c sep' _ hcne] at hpre
      exact Bool.false_ne_true hpre)]
    have hrec := ih f t
      (by simp only [List.length_append, List.length_cons] at hlen ⊢; omega)
      (fun m => hc (List.mem_cons_of_mem c m))
    simp only [List.cons_append] at hrec
    rw [hrec]
    have harith : f + 1 - (c :: u').length - 1 = f - u'.length - 1 := by
      simp only [List.length_cons]
      omega
    rw [harith]

/-- Splitting the `joinSep`-joined segments on the separator recovers the
segments, provided no segment contains the separator's first character. -/
lemma splitSeqAux_joinSep (c0 : Char) (sep' : List Char) :
    ∀ (xs : List (List Char)) (fuel : Nat),
      (joinSep (c0 :: sep') xs).length ≤ fuel → xs ≠ [] →
      (∀ u ∈ xs, c0 ∉ u) →
      splitSeqAux (c0 :: sep') fuel (joinSep (c0 :: sep') xs) = xs := by
  intro xs
  induction xs with
  | nil => intro fuel _ hne _; exact absurd rfl hne
  | cons x xs ih =>
    intro fuel hlen _ hc
    cases xs with
    | nil =>
      exact splitSeqAux_no_sep c0 sep' fuel x hlen (hc x (List.mem_cons_self x []))
    | cons y rest =>
      have hjoin : joinSep (c0 :: sep') (x :: y :: rest) =
          x ++ (c0 :: sep') ++ joinSep (c0 :: sep') (y :: rest) := rfl
      rw [hjoin] at hlen ⊢
      rw [splitSeqAux_block c0 sep' x fuel _ hlen (hc x (List.mem_cons_self x _))]
      rw [ih (fuel - x.length - 1) (by simp at hlen; omega) (by simp)
        (fun u hu => hc u (List.mem_cons_of_mem x hu))]

/-- `splitSeq sep (joinSep sep xs) = xs` for a non-empty separator whose first
character occurs in no segment. -/
lemma splitSeq_joinSep (c0 : Char) (sep' : List Char) (xs : List (List Char))
    (hne : xs ≠ []) (hc : ∀ u ∈ xs, c0 ∉ u) :
    splitSeq (c0 :: sep') (joinSep (c0 :: sep') xs) = xs :=
  splitSeqAux_joinSep c0 sep' xs _ le_rfl hne hc

lemma char_toNat_lt (c : Char) : c.toNat < 0x110000 := by
  have h := c.valid
  rcases h with h | ⟨-, h⟩ <;> exact Nat.lt_of_lt_of_le h (by norm_num)

lemma fromHexDigit_toHexDigit (k : Nat) (hk : k < 16) :
    fromHexDigit (toHexDigit k) = some k := by
  interval_cases k <;> decide

lemma toHexDigit_ne_slash (k : Nat) (hk : k < 16) : toHexDigit k ≠ '/' := by
  interval_cases k <;> decide

lemma utf8Bytes_lt_256 (n : Nat) (hn : n < 0x110000) : ∀ b ∈ utf8Bytes n, b < 256 := by
  intro b hb
  unfold utf8Bytes at hb
  by_cases h1 : n < 0x80
  · rw [if_pos h1] at hb
    simp only [List.mem_singleton] at hb
    omega
  · rw [if_neg h1] at hb
    by_cases h2 : n < 0x800
    · rw [if_pos h2] at hb
      simp only [List.mem_cons, List.not_mem_nil, or_false] at hb
      omega
    · rw [if_neg h2] at hb
      by_cases h3 : n < 0x10000
      · rw [if_pos h3] at hb
        simp only [List.mem_cons, List.not_mem_nil, or_false] at hb
        omega
      · rw [if_neg h3] at hb
        simp only [List.mem_cons, List.not_mem_nil, or_false] at hb
        omega

lemma isUnreservedURIChar_toNat_lt (c : Char) (h : isUnreservedURIChar c = true) :
    c.toNat < 128 := by
  simp only [isUnreservedURIChar, Bool.or_eq_true, Bool.and_eq_true, decide_eq_true_eq,
    beq_iff_eq] at h
  rcases h with ((((((((((⟨h1, h2⟩ | ⟨h1, h2⟩) | ⟨h1, h2⟩) | rfl) | rfl) | rfl) | rfl) | rfl) |
    rfl) | rfl) | rfl) | rfl <;> first | omega | decide

lemma isUnreservedURIChar_ne_percent (c : Char) (h : isUnreservedURIChar c = true) :
    c ≠ '%' := by
  rintro rfl
  exact absurd h (by decide)

lemma isUnreservedURIChar_ne_slash (c : Char) (h : isUnreservedURIChar c = true) :
    c ≠ '/' := by
  rintro rfl
  exact absurd h (by decide)

lemma mem_encodeByte_ne_slash (b : Nat) (hb : b < 256) : ∀ a ∈ encodeByte b, a ≠ '/' := by
  intro a ha
  simp only [encodeByte, List.mem_cons, List.not_mem_nil, or_false] at ha
  rcases ha with rfl | rfl | rfl
  · decide
  · exact toHexDigit_ne_slash _ (by omega)
  · exact toHexDigit_ne_slash _ (by omega)

lemma encodeURIComponentChar_no_slash (c : Char) : '/' ∉ encodeURIComponentChar c := by
  unfold encodeURIComponentChar
  split
  · next h =>
    simp only [List.mem_singleton]
    intro e
    exact isUnreservedURIChar_ne_slash c h e.symm
  · intro hm
    simp only [List.mem_flatten, List.mem_map] at hm
    obtain ⟨l, ⟨b, hb, rfl⟩, hml⟩ := hm
    exact mem_encodeByte_ne_slash b (utf8Bytes_lt_256 c.toNat (char_toNat_lt c) b hb) '/' hml rfl

lemma encodeURIComponent_no_slash (s : List Char) : '/' ∉ encodeURIComponent s := by
  intro hm
  simp only [encodeURIComponent, List.mem_flatten, List.mem_map] at hm
  obtain ⟨l, ⟨c, hc, rfl⟩, hml⟩ := hm
  exact encodeURIComponentChar_no_slash c hml

lemma decodeLoop_nil {α β : Type} (step : List α → Option (β × List α)) (fuel : Nat)
    (hnil : step [] = none) : decodeLoop step fuel [] = [] := by
  cases fuel with
  | zero => rfl
  | succ g => simp only [decodeLoop, hnil]

lemma percentDecodeOne_shrink :
    ∀ (l : List Char) (b : Nat) (r : List Char),
      percentDecodeOne l = some (b, r) → r.length < l.length := by
  intro l b r h
  rcases l with _ | ⟨c, rest⟩
  · simp [percentDecodeOne] at h
  · simp only [percentDecodeOne] at h
    repeat' split at h
    all_goals first
      | exact Option.noConfusion h
      | (simp only [Option.some.injEq, Prod.mk.injEq] at h
         obtain ⟨rfl, rfl⟩ := h
         simp only [List.length_drop, List.length_cons]
         omega)

lemma utf8DecodeOne_shrink :
    ∀ (l : List Nat) (b : Nat) (r : List Nat),
      utf8DecodeOne l = some (b, r) → r.length < l.length := by
  intro l b r h
  rcases l with _ | ⟨b0, rest⟩
  · simp [utf8DecodeOne] at h
  · simp only [utf8DecodeOne] at h
    repeat' split at h
    all_goals first
      | exact Option.noConfusion h
      | (simp only [Option.some.injEq, Prod.mk.injEq] at h
         obtain ⟨rfl, rfl⟩ := h
         simp only [List.length_drop, List.length_cons]
         omega)

lemma decodeLoop_irrel {α β : Type} (step : List α → Option (β × List α))
    (hs : ∀ l b r, step l = some (b, r) → r.length < l.length)
    (hnil : step [] = none) :
    ∀ (f1 f2 : Nat) (s : List α), s.length ≤ f1 → s.length ≤ f2 →
      decodeLoop step f1 s = decodeLoop step f2 s := by
  intro f1
  induction f1 using Nat.strong_induction_on with
  | _ f1 ih =>
    intro f2 s h1 h2
    rcases s with _ | ⟨x, rest⟩
    · rw [decodeLoop_nil _ _ hnil, decodeLoop_nil _ _ hnil]
    · obtain ⟨g1, rfl⟩ : ∃ g, f1 = g + 1 := ⟨f1 - 1, by simp at h1; omega⟩
      obtain ⟨g2, rfl⟩ : ∃ g, f2 = g + 1 := ⟨f2 - 1, by simp at h2; omega⟩
      simp only [decodeLoop]
      cases hstep : step (x :: rest) with
      | none => rfl
      | some br =>
        obtain ⟨b, rest'⟩ := br
        have hlen := hs _ _ _ hstep
        simp only [List.length_cons] at h1 h2 hlen
        show b :: decodeLoop step g1 rest' = b :: decodeLoop step g2 rest'
        rw [ih g1 (by omega) g2 rest' (by omega) (by omega)]

/-- One decoding step consuming exactly the prefix `u` lets the loop emit `v`
and continue on `t` (with fuel normalised to `t.length`). -/
lemma decodeLoop_cons {α β : Type} (step : List α → Option (β × List α))
    (hs : ∀ l b r, step l = some (b, r) → r.length < l.length)
    (hnil : step [] = none)
    (u t : List α) (v : β) (hu : u ≠ [])
    (hstep : step (u ++ t) = some (v, t)) (fuel : Nat)
    (hf : (u ++ t).length ≤ fuel) :
    decodeLoop step fuel (u ++ t) = v :: decodeLoop step t.length t := by
  have hlen : 1 ≤ u.length := by
    rcases u with _ | ⟨x, u'⟩
    · exact absurd rfl hu
    · simp
  obtain ⟨g, rfl⟩ : ∃ g, fuel = g + 1 :=
    ⟨fuel - 1, by simp only [List.length_append] at hf; omega⟩
  simp only [decodeLoop, hstep]
  congr 1
  exact decodeLoop_irrel step hs hnil g t.length t
    (by simp only [List.length_append] at hf; omega)
    le_rfl

lemma utf8Bytes_ne_nil (n : Nat) : utf8Bytes n ≠ [] := by
  unfold utf8Bytes
  repeat' split
  all_goals simp

lemma percentDecodeOne_unreserved (c : Char) (h : isUnreservedURIChar c = true)
    (rest : List Char) :
    percentDecodeOne (c :: rest) = some (c.toNat, rest) := by
  simp only [percentDecodeOne]
  rw [if_neg (isUnreservedURIChar_ne_percent c h)]

lemma percentDecodeOne_encodeByte (b : Nat) (hb : b < 256) (rest : List Char) :
    percentDecodeOne (encodeByte b ++ rest) = some (b, rest) := by
  have e1 : fromHexDigit (toHexDigit (b / 16)) = some (b / 16) :=
    fromHexDigit_toHexDigit _ (by omega)
  have e2 : fromHexDigit (toHexDigit (b % 16)) = some (b % 16) :=
    fromHexDigit_toHexDigit _ (by omega)
  show percentDecodeOne ('%' :: toHexDigit (b / 16) :: toHexDigit (b % 16) :: rest) = _
  simp [percentDecodeOne, e1, e2]
  omega

lemma utf8DecodeOne_utf8Bytes (n : Nat) (hn : n < 0x110000) (bs : List Nat) :
    utf8DecodeOne (utf8Bytes n ++ bs) = some (n, bs) := by
  unfold utf8Bytes
  by_cases h1 : n < 0x80
  · rw [if_pos h1]
    show utf8DecodeOne (n :: bs) = _
    simp only [utf8DecodeOne]
    rw [if_pos h1]
  · rw [if_neg h1]
    by_cases h2 : n < 0x800
    · rw [if_pos h2]
      show utf8DecodeOne ((0xC0 + n / 64) :: (0x80 + n % 64) :: bs) = _
      simp only [utf8DecodeOne, List.head?_cons, List.drop_succ_cons, List.drop_zero]
      rw [if_neg (by omega), if_pos (by omega), if_pos (by omega)]
      simp only [Option.some.injEq, Prod.mk.injEq]
      exact ⟨by omega, trivial⟩
    · rw [if_neg h2]
      by_cases h3 : n < 0x10000
      · rw [if_pos h3]
        show utf8DecodeOne
            ((0xE0 + n / 4096) :: (0x80 + n / 64 % 64) :: (0x80 + n % 64) :: bs) = _
        simp only [utf8DecodeOne, List.head?_cons, List.drop_succ_cons, List.drop_zero]
        rw [if_neg (by omega), if_neg (by omega), if_pos (by omega), if_pos (by omega)]
        simp only [Option.some.injEq, Prod.mk.injEq]
        exact ⟨by omega, trivial⟩
      · rw [if_neg h3]
        show utf8DecodeOne ((0xF0 + n / 262144) :: (0x80 + n / 4096 % 64) ::
            (0x80 + n / 64 % 64) :: (0x80 + n % 64) :: bs) = _
        simp only [utf8DecodeOne, List.head?_cons, List.drop_succ_cons, List.drop_zero]
        rw [if_neg (by omega), if_neg (by omega), if_neg (by omega), if_pos (by omega),
          if_pos (by omega)]
        simp only [Option.some.injEq, Prod.mk.injEq]
        exact ⟨by omega, trivial⟩

lemma decodeLoop_encodeBytes (bytes : List Nat) (hb : ∀ b ∈ bytes, b < 256) (t : List Char) :
    decodeLoop percentDecodeOne ((bytes.map encodeByte).flatten ++ t).length
      ((bytes.map encodeByte).flatten ++ t) =
    bytes ++ decodeLoop percentDecodeOne t.length t := by
  induction bytes with
  | nil => simp
  | cons b bs ih =>
    simp only [List.map_cons, List.flatten_cons, List.append_assoc]
    rw [decodeLoop_cons percentDecodeOne percentDecodeOne_shrink rfl (encodeByte b)
      ((bs.map encodeByte).flatten ++ t) b (by simp [encodeByte])
      (percentDecodeOne_encodeByte b (hb b (List.mem_cons_self b bs)) _) _ le_rfl]
    rw [ih (fun x hx => hb x (List.mem_cons_of_mem _ hx))]
    simp

lemma decodeLoop_encodeURIComponent (s : List Char) (t : List Char) :
    decodeLoop percentDecodeOne (encodeURIComponent s ++ t).length
      (encodeURIComponent s ++ t) =
    (s.map (fun c => utf8Bytes c.toNat)).flatten ++ decodeLoop percentDecodeOne t.length t := by
  induction s with
  | nil => simp [encodeURIComponent]
  | cons c cs ih =>
    by_cases hc : isUnreservedURIChar c = true
    · have hchar : encodeURIComponent (c :: cs) = c :: encodeURIComponent cs := by
        simp [encodeURIComponent, encodeURIComponentChar, hc]
      have hsmall : utf8Bytes c.toNat = [c.toNat] := by
        unfold utf8Bytes
        rw [if_pos (isUnreservedURIChar_toNat_lt c hc)]
      have hstep := decodeLoop_cons percentDecodeOne percentDecodeOne_shrink rfl [c]
        (encodeURIComponent cs ++ t) c.toNat (by simp)
        (by simpa using percentDecodeOne_unreserved c hc (encodeURIComponent cs ++ t))
        ([c] ++ (encodeURIComponent cs ++ t)).length le_rfl
      simp only [List.singleton_append] at hstep
      rw [hchar, List.cons_append, hstep, ih]
      simp [hsmall]
    · have hchar : encodeURIComponent (c :: cs) ++ t =
          ((utf8Bytes c.toNat).map encodeByte).flatten ++ (encodeURIComponent cs ++ t) := by
        simp [encodeURIComponent, encodeURIComponentChar, hc]
      rw [hchar, decodeLoop_encodeBytes _ (utf8Bytes_lt_256 _ (char_toNat_lt c)) _, ih]
      simp

lemma decodeLoop_utf8Flatten (cs : List Char) (t : List Nat) :
    decodeLoop utf8DecodeOne ((cs.map (fun c => utf8Bytes c.toNat)).flatten ++ t).length
      ((cs.map (fun c => utf8Bytes c.toNat)).flatten ++ t) =
    cs.map Char.toNat ++ decodeLoop utf8DecodeOne t.length t := by
  induction cs with
  | nil => simp
  | cons c cs ih =>
    simp only [List.map_cons, List.flatten_cons, List.append_assoc]
    rw [decodeLoop_cons utf8DecodeOne utf8DecodeOne_shrink rfl (utf8Bytes c.toNat) _ c.toNat
      (utf8Bytes_ne_nil _) (utf8DecodeOne_utf8Bytes c.toNat (char_toNat_lt c) _) _ le_rfl]
    rw [ih]
    simp

/-- Percent-decoding inverts `encodeURIComponent` on every string. -/
lemma percentDecode_encodeURIComponent (s : List Char) :
    percentDecode (encodeURIComponent s) = s := by
  unfold percentDecode percentDecodeBytes utf8DecodeBytes
  have h1 := decodeLoop_encodeURIComponent s []
  rw [decodeLoop_nil _ _ rfl] at h1
  simp only [List.append_nil] at h1
  rw [h1]
  have h2 := decodeLoop_utf8Flatten s []
  rw [decodeLoop_nil _ _ rfl] at h2
  simp only [List.append_nil] at h2
  rw [h2, List.map_map]
  rw [show (Char.ofNat ∘ Char.toNat) = id from funext Char.ofNat_toNat, List.map_id]

/-- Splitting the encoded job path on `'/job/'` recovers the encoded segments. -/
lemma splitSeq_encodeJobName (name : List Char) :
    splitSeq jobSep (encodeJobName name) = (splitSeq ['/'] name).map encodeURIComponent := by
  apply splitSeq_joinSep
  · intro h
    rcases List.map_eq_nil_iff.mp h with h'
    exact splitSeq_ne_nil ['/'] name h'
  · intro u hu
    rw [List.mem_map] at hu
    obtain ⟨seg, -, rfl⟩ := hu
    exact encodeURIComponent_no_slash seg

/-- C4: for every job full name, splitting `encodeJobName fullName` on the
literal separator `'/job/'` and percent-decoding each resulting segment
recovers the original `'/'`-separated segments exactly. -/
theorem encodeJobName_roundtrip (name : List Char) :
    (splitSeq jobSep (encodeJobName name)).map percentDecode = splitSeq ['/'] name := by
  rw [splitSeq_encodeJobName, List.map_map]
  rw [show (percentDecode ∘ encodeURIComponent) = id from funext percentDecode_encodeURIComponent,
    List.map_id]

/-! ## Items data model and `queryItems` (C5, C6, C8)
Source: `src/src/client/apis/items-api.ts`, `queryItems` (lines 90-106) and
`compileItemRegexes` (lines 144-163). The HTTP fetch (`getAllItems`) is
modelled by the `items` argument; the regex engine (`new RegExp(...).test`)
is an oracle parameter compiling a pattern to a `test` predicate. -/

/-- The fields of a Jenkins item used by `queryItems` filtering
(`types/jenkins.ts`: `_class` and `fullName` required, `color` optional). -/
structure JenkinsItem where
  _class : String
  fullName : String
  color : Option String
  deriving DecidableEq

/-- The compiled regexes of one `queryItems` call (`null` = absent filter). -/
structure RegexSet where
  classRegex : Option (String → Bool)
  fullNameRegex : Option (String → Bool)
  colorRegex : Option (String → Bool)

/-- The three optional pattern arguments. -/
structure QueryItemsParams where
  classPattern : Option String
  fullNamePattern : Option String
  colorPattern : Option String
  deriving DecidableEq

/-- JS truthiness of an optional string: `undefined` and `''` are falsy. -/
def strTruthy : Option String → Bool
  | none => false
  | some s => !(s == "")

/-- One string-field guard of the filter (items-api.ts lines 98-99): with a
regex present, the item passes only if the field tests true. -/
def fieldClausePasses (t? : Option (String → Bool)) (v : String) : Bool :=
  match t? with
  | none => true
  | some t => t v

/-- The color guard (items-api.ts lines 100-103): with a color regex present,
a falsy color (absent or empty string) fails; otherwise the color must test
true. -/
def colorClausePasses (t? : Option (String → Bool)) (color : Option String) : Bool :=
  match t? with
  | none => true
  | some t =>
    match color with
    | none => false
    | some c => if c = "" then false else t c

/-- The per-item predicate of `queryItems` (items-api.ts lines 97-105); the
early-return chain is the conjunction of its three guards. -/
def itemPasses (r : RegexSet) (it : JenkinsItem) : Bool :=
  fieldClausePasses r.classRegex it._class &&
  fieldClausePasses r.fullNameRegex it.fullName &&
  colorClausePasses r.colorRegex it.color

/-- The filtering stage of `queryItems` (`items.filter(...)`). -/
def queryItemsFilter (r : RegexSet) (items : List JenkinsItem) : List JenkinsItem :=
  items.filter (itemPasses r)

/-- A regex engine: compiles a pattern to a `test` predicate, or fails with
the engine's syntax-error message (JS `new RegExp`). -/
def RegexEngine : Type := String → Except String (String → Bool)

/-- One `if (pattern) x = new RegExp(pattern)` slot of `compileItemRegexes`
(truthiness check, then compile). The second component logs the patterns
handed to the engine. -/
def compilePattern (re : RegexEngine) (pat : Option String) :
    Except String (Option (String → Bool)) × List String :=
  match pat with
  | none => (.ok none, [])
  | some s =>
    if s = "" then (.ok none, [])
    else
      match re s with
      | .ok t => (.ok (some t), [s])
      | .error m => (.error m, [s])

/-- `compileItemRegexes` (items-api.ts lines 144-163): compile class, full
name and color patterns in order; the first engine failure aborts the whole
call, wrapped as `Invalid regex pattern: <engine message>`. -/
def compileItemRegexesLog (re : RegexEngine) (p : QueryItemsParams) :
    Except String RegexSet × List String :=
  match compilePattern re p.classPattern with
  | (.error m, lc) => (.error ("Invalid regex pattern: " ++ m), lc)
  | (.ok c, lc) =>
    match compilePattern re p.fullNamePattern with
    | (.error m, ln) => (.error ("Invalid regex pattern: " ++ m), lc ++ ln)
    | (.ok n, ln) =>
      match compilePattern re p.colorPattern with
      | (.error m, lcol) => (.error ("Invalid regex pattern: " ++ m), lc ++ ln ++ lcol)
      | (.ok col, lcol) => (.ok ⟨c, n, col⟩, lc ++ ln ++ lcol)

def compileItemRegexes (re : RegexEngine) (p : QueryItemsParams) : Except String RegexSet :=
  (compileItemRegexesLog re p).1

/-- `queryItems` (items-api.ts lines 90-106): compile first, then fetch and
filter. Also returns the engine-call log and whether the fetch was reached
(`false` when compilation failed — the source compiles before `getAllItems`). -/
def queryItemsLog (re : RegexEngine) (p : QueryItemsParams) (items : List JenkinsItem) :
    Except String (List JenkinsItem) × List String × Bool :=
  match compileItemRegexesLog re p with
  | (.error e, log) => (.error e, log, false)
  | (.ok r, log) => (.ok (queryItemsFilter r items), log, true)

def queryItems (re : RegexEngine) (p : QueryItemsParams) (items : List JenkinsItem) :
    Except String (List JenkinsItem) :=
  (queryItemsLog re p items).1

/-- The truthy patterns of a params record, in the order `compileItemRegexes`
examines them — the expected engine-call log. -/
def truthyPattern : Option String → List String
  | none => []
  | some s => if s = "" then [] else [s]

def truthyPatterns (p : QueryItemsParams) : List String :=
  truthyPattern p.classPattern ++ truthyPattern p.fullNamePattern ++
    truthyPattern p.colorPattern

lemma compilePattern_log (re : RegexEngine) (pat : Option String) :
    (compilePattern re pat).2 = truthyPattern pat := by
  cases pat with
  | none => rfl
  | some s =>
    by_cases hs : s = ""
    · simp [compilePattern, truthyPattern, hs]
    · cases hr : re s <;> simp [compilePattern, truthyPattern, hs, hr]

lemma compilePattern_ok_char (re : RegexEngine) (pat : Option String)
    (t? : Option (String → Bool)) (h : (compilePattern re pat).1 = .ok t?) :
    (strTruthy pat = true → ∃ t, t? = some t) ∧
    (strTruthy pat = false → t? = none) := by
  cases pat with
  | none =>
    simp only [compilePattern, Except.ok.injEq] at h
    subst h
    exact ⟨fun hf => by simp [strTruthy] at hf, fun _ => rfl⟩
  | some s =>
    by_cases hs : s = ""
    · subst hs
      have he : (compilePattern re (some "")).1 = .ok none := by simp [compilePattern]
      rw [he] at h
      simp only [Except.ok.injEq] at h
      subst h
      refine ⟨fun hf => ?_, fun _ => rfl⟩
      simp [strTruthy] at hf
    · cases hr : re s with
      | ok t =>
        simp only [compilePattern, if_neg hs, hr, Except.ok.injEq] at h
        subst h
        refine ⟨fun _ => ⟨t, rfl⟩, fun hf => ?_⟩
        simp [strTruthy, hs] at hf
      | error m =>
        simp [compilePattern, if_neg hs, hr] at h

lemma compilePattern_error (re : RegexEngine) (pat : Option String) (m : String)
    (h : (compilePattern re pat).1 = .error m) :
    ∃ s, pat = some s ∧ s ≠ "" ∧ re s = .error m ∧ truthyPattern pat = [s] := by
  cases pat with
  | none => simp [compilePattern] at h
  | some s =>
    by_cases hs : s = ""
    · simp [compilePattern, hs] at h
    · cases hr : re s with
      | ok t => simp [compilePattern, if_neg hs, hr] at h
      | error m' =>
        simp only [compilePattern, if_neg hs, hr] at h
        cases h
        exact ⟨s, rfl, hs, hr, by simp [truthyPattern, hs]⟩

lemma compileItemRegexes_ok_parts (re : RegexEngine) (p : QueryItemsParams) (r : RegexSet)
    (h : compileItemRegexes re p = .ok r) :
    (compilePattern re p.classPattern).1 = .ok r.classRegex ∧
    (compilePattern re p.fullNamePattern).1 = .ok r.fullNameRegex ∧
    (compilePattern re p.colorPattern).1 = .ok r.colorRegex := by
  unfold compileItemRegexes compileItemRegexesLog at h
  cases hc : compilePattern re p.classPattern with
  | mk rc lc =>
    rw [hc] at h
    cases rc with
    | error m => simp at h
    | ok c =>
      cases hn : compilePattern re p.fullNamePattern with
      | mk rn ln =>
        rw [hn] at h
        cases rn with
        | error m => simp at h
        | ok n =>
          cases hcol : compilePattern re p.colorPattern with
          | mk rcol lcol =>
            rw [hcol] at h
            cases rcol with
            | error m => simp at h
            | ok col =>
              simp only [Except.ok.injEq] at h
              subst h
              exact ⟨rfl, rfl, rfl⟩

lemma queryItems_ok_iff (re : RegexEngine) (p : QueryItemsParams)
    (items res : List JenkinsItem) :
    queryItems re p items = .ok res ↔
      ∃ r, compileItemRegexes re p = .ok r ∧ res = queryItemsFilter r items := by
  unfold queryItems queryItemsLog compileItemRegexes
  cases hlog : compileItemRegexesLog re p with
  | mk rr log =>
    cases rr with
    | error e => simp
    | ok r =>
      simp only [Except.ok.injEq]
      constructor
      · intro h
        exact ⟨r, rfl, h.symm⟩
      · rintro ⟨r', hr', hres⟩
        cases hr'
        exact hres.symm

/-- C5: with a non-empty color pattern, an item whose color is absent is
excluded from every successful `queryItems` result, regardless of the other
filters; with no color pattern, color absence never excludes an item — its
membership is decided by the class and full-name clauses alone. -/
theorem queryItems_color_absence :
    (∀ (re : RegexEngine) (p : QueryItemsParams) (items res : List JenkinsItem)
      (it : JenkinsItem) (cp : String),
      p.colorPattern = some cp → cp ≠ "" →
      queryItems re p items = .ok res → it.color = none → it ∉ res) ∧
    (∀ (re : RegexEngine) (p : QueryItemsParams) (items res : List JenkinsItem)
      (it : JenkinsItem),
      strTruthy p.colorPattern = false →
      queryItems re p items = .ok res → it ∈ items → it.color = none →
      (it ∈ res ↔ ∃ r, compileItemRegexes re p = .ok r ∧
        fieldClausePasses r.classRegex it._class = true ∧
        fieldClausePasses r.fullNameRegex it.fullName = true)) := by
  constructor
  · intro re p items res it cp hcp hne hq hcolor hmem
    obtain ⟨r, hr, rfl⟩ := (queryItems_ok_iff re p items res).mp hq
    obtain ⟨t, ht⟩ := (compilePattern_ok_char re p.colorPattern r.colorRegex
      (compileItemRegexes_ok_parts re p r hr).2.2).1 (by simp [hcp, strTruthy, hne])
    have hp := (List.mem_filter.mp hmem).2
    simp [itemPasses, colorClausePasses, ht, hcolor] at hp
  · intro re p items res it htr hq hit hcolor
    obtain ⟨r, hr, rfl⟩ := (queryItems_ok_iff re p items res).mp hq
    have hcolnone : r.colorRegex = none :=
      (compilePattern_ok_char re p.colorPattern r.colorRegex
        (compileItemRegexes_ok_parts re p r hr).2.2).2 htr
    constructor
    · intro hmem
      have hp := (List.mem_filter.mp hmem).2
      simp only [itemPasses, hcolnone, colorClausePasses, Bool.and_true,
        Bool.and_eq_true] at hp
      exact ⟨r, hr, hp.1, hp.2⟩
    · rintro ⟨r', hr', hcl, hfn⟩
      rw [hr] at hr'
      cases hr'
      refine List.mem_filter.mpr ⟨hit, ?_⟩
      simp [itemPasses, hcolnone, colorClausePasses, hcl, hfn]


/-- C6: applying the three filters conjunctively in one `queryItems` pass
yields the same list as applying the three single-field filters sequentially
in any of the six orders, and applying any filter pass twice equals applying
it once. -/
theorem queryItems_filters_commute_idempotent :
    (∀ (re : RegexEngine) (p : QueryItemsParams) (items : List JenkinsItem) (r : RegexSet),
      compileItemRegexes re p = .ok r →
      queryItems re p items = .ok (queryItemsFilter r items)) ∧
    (∀ (c n col : String → Bool) (items : List JenkinsItem),
      queryItemsFilter ⟨none, none, some col⟩ (queryItemsFilter ⟨none, some n, none⟩
        (queryItemsFilter ⟨some c, none, none⟩ items)) =
        queryItemsFilter ⟨some c, some n, some col⟩ items ∧
      queryItemsFilter ⟨none, some n, none⟩ (queryItemsFilter ⟨none, none, some col⟩
        (queryItemsFilter ⟨some c, none, none⟩ items)) =
        queryItemsFilter ⟨some c, some n, some col⟩ items ∧
      queryItemsFilter ⟨none, none, some col⟩ (queryItemsFilter ⟨some c, none, none⟩
        (queryItemsFilter ⟨none, some n, none⟩ items)) =
        queryItemsFilter ⟨some c, some n, some col⟩ items ∧
      queryItemsFilter ⟨some c, none, none⟩ (queryItemsFilter ⟨none, none, some col⟩
        (queryItemsFilter ⟨none, some n, none⟩ items)) =
        queryItemsFilter ⟨some c, some n, some col⟩ items ∧
      queryItemsFilter ⟨none, some n, none⟩ (queryItemsFilter ⟨some c, none, none⟩
        (queryItemsFilter ⟨none, none, some col⟩ items)) =
        queryItemsFilter ⟨some c, some n, some col⟩ items ∧
      queryItemsFilter ⟨some c, none, none⟩ (queryItemsFilter ⟨none, some n, none⟩
        (queryItemsFilter ⟨none, none, some col⟩ items)) =
        queryItemsFilter ⟨some c, some n, some col⟩ items) ∧
    (∀ (r : RegexSet) (items : List JenkinsItem),
      queryItemsFilter r (queryItemsFilter r items) = queryItemsFilter r items) := by
  refine ⟨?_, ?_, ?_⟩
  · intro re p items r h
    unfold queryItems queryItemsLog
    unfold compileItemRegexes at h
    cases hlog : compileItemRegexesLog re p with
    | mk rr log =>
      rw [hlog] at h
      cases rr with
      | error e => simp at h
      | ok r' =>
        simp only [Except.ok.injEq] at h
        subst h
        rfl
  · intro c n col items
    refine ⟨?_, ?_, ?_, ?_, ?_, ?_⟩ <;>
      (simp only [queryItemsFilter, List.filter_filter]
       apply List.filter_congr
       intro a _
       simp only [itemPasses, fieldClausePasses,
         show ∀ x, colorClausePasses none x = true from fun _ => rfl,
         Bool.and_true, Bool.true_and]
       cases c a._class <;> cases n a.fullName <;>
         cases colorClausePasses (some col) a.color <;> rfl)
  · intro r items
    simp only [queryItemsFilter, List.filter_filter]
    apply List.filter_congr
    intro a _
    cases itemPasses r a <;> rfl

/-- Witness for C6's conditional conjunct at a concrete engine, pattern set
and item list. -/
theorem queryItems_filters_commute_witness :
    queryItems (fun p => .ok (fun v => p == v))
      ⟨some "j", none, some "blue"⟩
      [⟨"j", "a", some "blue"⟩, ⟨"j", "b", none⟩] =
      .ok (queryItemsFilter
        ⟨some (fun v => ("j" : String) == v), none, some (fun v => ("blue" : String) == v)⟩
        [⟨"j", "a", some "blue"⟩, ⟨"j", "b", none⟩]) := by
  exact queryItems_filters_commute_idempotent.1 _ _ _ _ rfl


/-- Witness for C5: a colorless item is dropped under a color filter and kept
(via the class/name clauses alone) when no color filter is given. -/
theorem queryItems_color_absence_witness :
    queryItems (fun s => .ok (fun v => s == v)) ⟨none, none, some "blue"⟩
      [⟨"k", "x", none⟩] = .ok [] ∧
    ((⟨"k", "x", none⟩ : JenkinsItem) ∉ ([] : List JenkinsItem)) ∧
    (⟨"k", "x", none⟩ : JenkinsItem) ∈ [(⟨"k", "x", none⟩ : JenkinsItem)] := by
  refine ⟨rfl, queryItems_color_absence.1 (fun s => .ok (fun v => s == v))
      ⟨none, none, some "blue"⟩ [⟨"k", "x", none⟩] [] ⟨"k", "x", none⟩ "blue"
      rfl (by decide) rfl rfl,
    (queryItems_color_absence.2 (fun s => .ok (fun v => s == v))
      ⟨some "k", none, none⟩ [⟨"k", "x", none⟩] [⟨"k", "x", none⟩] ⟨"k", "x", none⟩
      rfl rfl (List.mem_cons_self _ _) rfl).mpr
      ⟨⟨some (fun v => ("k" : String) == v), none, none⟩, rfl, rfl, rfl⟩⟩

/-! ### Substring containment (JS `String.prototype.includes`) -/

def listContainsSub (needle : List Char) : List Char → Bool
  | [] => needle.isEmpty
  | c :: rest => needle.isPrefixOf (c :: rest) || listContainsSub needle rest

/-- JS `hay.includes(needle)`. -/
def strContains (hay needle : String) : Bool :=
  listContainsSub needle.toList hay.toList

lemma listContainsSub_prefix (n t : List Char) : listContainsSub n (n ++ t) = true := by
  cases n with
  | nil => cases t <;> simp [listContainsSub, List.isPrefixOf]
  | cons c n' =>
    simp only [List.cons_append, listContainsSub, List.append_eq]
    have h := isPrefixOf_append_self (c :: n') t
    simp only [List.cons_append] at h
    rw [h]
    simp

lemma listContainsSub_append_left (p n m : List Char) (h : listContainsSub n m = true) :
    listContainsSub n (p ++ m) = true := by
  induction p with
  | nil => simpa using h
  | cons c p' ih => simp [listContainsSub, ih]

lemma strContains_append_right (pre m s : String) (h : strContains m s = true) :
    strContains (pre ++ m) s = true := by
  unfold strContains at h ⊢
  have he : (pre ++ m).toList = pre.toList ++ m.toList := String.data_append pre m
  rw [he]
  exact listContainsSub_append_left _ _ _ h

lemma strContains_self (s : String) : strContains s s = true := by
  unfold strContains
  simpa using listContainsSub_prefix s.toList []

/-! ### C8 — pattern compilation: once per call, fail-fast -/

lemma compileItemRegexesLog_ok_log (re : RegexEngine) (p : QueryItemsParams)
    (rr : RegexSet) (log : List String)
    (h : compileItemRegexesLog re p = (.ok rr, log)) : log = truthyPatterns p := by
  unfold compileItemRegexesLog at h
  cases hc : compilePattern re p.classPattern with
  | mk rc lc =>
    rw [hc] at h
    cases rc with
    | error m => simp at h
    | ok c =>
      cases hn : compilePattern re p.fullNamePattern with
      | mk rn ln =>
        rw [hn] at h
        cases rn with
        | error m => simp at h
        | ok n =>
          cases hcol : compilePattern re p.colorPattern with
          | mk rcol lcol =>
            rw [hcol] at h
            cases rcol with
            | error m => simp at h
            | ok col =>
              simp only [Prod.mk.injEq] at h
              have h1 : (compilePattern re p.classPattern).2 = lc := by rw [hc]
              have h2 : (compilePattern re p.fullNamePattern).2 = ln := by rw [hn]
              have h3 : (compilePattern re p.colorPattern).2 = lcol := by rw [hcol]
              rw [compilePattern_log] at h1 h2 h3
              rw [← h.2, ← h1, ← h2, ← h3]
              rfl

lemma compileItemRegexesLog_error_exists (re : RegexEngine) (p : QueryItemsParams)
    (e : String) (log : List String)
    (h : compileItemRegexesLog re p = (.error e, log)) :
    ∃ s m, s ∈ truthyPatterns p ∧ re s = .error m ∧ e = "Invalid regex pattern: " ++ m := by
  unfold compileItemRegexesLog at h
  cases hc : compilePattern re p.classPattern with
  | mk rc lc =>
    rw [hc] at h
    cases rc with
    | error m =>
      simp only [Prod.mk.injEq, Except.error.injEq] at h
      obtain ⟨s, -, -, hre, htr⟩ := compilePattern_error re p.classPattern m (by rw [hc])
      exact ⟨s, m, by simp [truthyPatterns, htr], hre, h.1.symm⟩
    | ok c =>
      cases hn : compilePattern re p.fullNamePattern with
      | mk rn ln =>
        rw [hn] at h
        cases rn with
        | error m =>
          simp only [Prod.mk.injEq, Except.error.injEq] at h
          obtain ⟨s, -, -, hre, htr⟩ := compilePattern_error re p.fullNamePattern m (by rw [hn])
          exact ⟨s, m, by simp [truthyPatterns, htr], hre, h.1.symm⟩
        | ok n =>
          cases hcol : compilePattern re p.colorPattern with
          | mk rcol lcol =>
            rw [hcol] at h
            cases rcol with
            | error m =>
              simp only [Prod.mk.injEq, Except.error.injEq] at h
              obtain ⟨s, -, -, hre, htr⟩ :=
                compilePattern_error re p.colorPattern m (by rw [hcol])
              exact ⟨s, m, by simp [truthyPatterns, htr], hre, h.1.symm⟩
            | ok col => simp at h

/-- C8: each truthy pattern is handed to the regex engine exactly once per
`queryItems` call — the engine-call log equals the list of truthy patterns and
does not depend on the fetched items — and an engine failure fails the whole
call before the fetch, with the error wrapping the engine's syntax message;
when the engine message names the offending pattern, so does the call's
error. -/
theorem queryItems_compile_once_fail_fast :
    (∀ (re : RegexEngine) (p : QueryItemsParams) (items : List JenkinsItem) (r : RegexSet),
      compileItemRegexes re p = .ok r →
      (queryItemsLog re p items).2.1 = truthyPatterns p) ∧
    (∀ (re : RegexEngine) (p : QueryItemsParams) (items1 items2 : List JenkinsItem),
      (queryItemsLog re p items1).2.1 = (queryItemsLog re p items2).2.1) ∧
    (∀ (re : RegexEngine) (p : QueryItemsParams) (items : List JenkinsItem) (e : String),
      compileItemRegexes re p = .error e →
      queryItems re p items = .error e ∧
      (queryItemsLog re p items).2.2 = false ∧
      ∃ s m, s ∈ truthyPatterns p ∧ re s = .error m ∧
        e = "Invalid regex pattern: " ++ m) ∧
    (∀ (re : RegexEngine) (p : QueryItemsParams) (e : String),
      (∀ s m, re s = .error m → strContains m s = true) →
      compileItemRegexes re p = .error e →
      ∃ s m, s ∈ truthyPatterns p ∧ re s = .error m ∧
        strContains e s = true ∧ strContains e m = true) := by
  have herr : ∀ (re : RegexEngine) (p : QueryItemsParams) (e : String),
      compileItemRegexes re p = .error e →
      ∃ s m, s ∈ truthyPatterns p ∧ re s = .error m ∧
        e = "Invalid regex pattern: " ++ m := by
    intro re p e h
    unfold compileItemRegexes at h
    cases hlog : compileItemRegexesLog re p with
    | mk rr log =>
      rw [hlog] at h
      cases rr with
      | ok r => simp at h
      | error e' =>
        simp only [Except.error.injEq] at h
        subst h
        exact compileItemRegexesLog_error_exists re p e' log hlog
  refine ⟨?_, ?_, ?_, ?_⟩
  · intro re p items r h
    unfold compileItemRegexes at h
    unfold queryItemsLog
    cases hlog : compileItemRegexesLog re p with
    | mk rr log =>
      rw [hlog] at h
      cases rr with
      | error e => simp at h
      | ok r' => simpa using compileItemRegexesLog_ok_log re p r' log hlog
  · intro re p items1 items2
    unfold queryItemsLog
    cases hlog : compileItemRegexesLog re p with
    | mk rr log => cases rr <;> rfl
  · intro re p items e h
    unfold compileItemRegexes at h
    cases hlog : compileItemRegexesLog re p with
    | mk rr log =>
      rw [hlog] at h
      cases rr with
      | ok r => simp at h
      | error e' =>
        simp only [Except.error.injEq] at h
        subst h
        refine ⟨?_, ?_, compileItemRegexesLog_error_exists re p e' log hlog⟩
        · unfold queryItems queryItemsLog
          rw [hlog]
        · unfold queryItemsLog
          rw [hlog]
  · intro re p e hname h
    obtain ⟨s, m, hmem, hre, rfl⟩ := herr re p e h
    exact ⟨s, m, hmem, hre,
      strContains_append_right _ _ _ (hname s m hre),
      strContains_append_right _ _ _ (strContains_self m)⟩

/-- Witness for C8 at a concrete engine whose error message is the offending
pattern itself, concrete patterns and items. -/
theorem queryItems_compile_once_fail_fast_witness :
    ((queryItemsLog (fun s => .ok (fun _ => true)) ⟨some "p", none, none⟩
        [⟨"a", "b", none⟩]).2.1 = truthyPatterns ⟨some "p", none, none⟩) ∧
    ((queryItemsLog (fun s => .error s) ⟨some "[", none, some "x"⟩ []).2.1 =
      (queryItemsLog (fun s => .error s) ⟨some "[", none, some "x"⟩
        [⟨"a", "b", none⟩]).2.1) ∧
    (queryItems (fun s => .error s) ⟨some "[", none, some "x"⟩ [⟨"a", "b", none⟩] =
      .error "Invalid regex pattern: [") ∧
    (∃ s m, s ∈ truthyPatterns ⟨some "[", none, some "x"⟩ ∧
      (fun (s : String) => (.error s : Except String (String → Bool))) s = .error m ∧
      strContains "Invalid regex pattern: [" s = true ∧
      strContains "Invalid regex pattern: [" m = true) := by
  refine ⟨queryItems_compile_once_fail_fast.1 _ _ _
      ⟨some (fun _ => true), none, none⟩ rfl,
    queryItems_compile_once_fail_fast.2.1 _ _ _ _,
    (queryItems_compile_once_fail_fast.2.2.1 (fun s => .error s)
      ⟨some "[", none, some "x"⟩ [⟨"a", "b", none⟩] "Invalid regex pattern: [" rfl).1,
    queryItems_compile_once_fail_fast.2.2.2 (fun s => .error s)
      ⟨some "[", none, some "x"⟩ "Invalid regex pattern: ["
      (fun s m h => by cases h; exact strContains_self s) rfl⟩


/-! ## JS values, validation helpers and tool handlers (C2, C7, C10)
Sources: `src/src/utils/validation.ts`, `src/src/tools/handlers/builds.ts`,
`src/src/tools/handlers/items.ts`, and the dispatch layer `executeTool`
(`src/unnamed/part_002`). -/

/-- A JS number: a finite value (modelled exactly as a rational — float
rounding is irrelevant to the claims), `NaN`, or an infinity. -/
inductive JsNum where
  | finite (q : ℚ)
  | nan
  | posInf
  | negInf
  deriving DecidableEq

/-- A JS value as seen by the dispatch layer: argument bags are JSON-like.
`vobj` is a plain object (prototype `Object.prototype`); `varr` stands for
the non-plain objects (arrays etc.); `vclient` is the `JenkinsClient`
instance itself (a class instance, so not a plain object) — it surfaces as a
value only when the dispatch layer looks up the inherited name
`constructor`, where `Object(client, args)` returns the client unchanged. -/
inductive JsValue where
  | vundefined
  | vnull
  | vbool (b : Bool)
  | vnum (n : JsNum)
  | vstr (s : String)
  | vobj (fields : List (String × JsValue))
  | varr (elems : List JsValue)
  | vclient

/-- JS `args?.key` (optional-chained property access): field lookup on a
plain object, `undefined` otherwise. -/
def getField (v : JsValue) (k : String) : JsValue :=
  match v with
  | .vobj fields =>
    match fields.lookup k with
    | some x => x
    | none => .vundefined
  | _ => .vundefined

/-- `isPlainObject` (validation.ts lines 42-45): non-null, `typeof 'object'`,
prototype is `Object.prototype`. -/
def isPlainObject : JsValue → Bool
  | .vobj _ => true
  | _ => false

/-- JS `String.prototype.trim`. -/
def jsTrim (s : String) : String :=
  String.mk (((s.toList.dropWhile isJsWhitespace).reverse.dropWhile isJsWhitespace).reverse)

/-- `assertNonEmptyString` (validation.ts lines 6-10). -/
def assertNonEmptyString (value : JsValue) (label : String) : Except String String :=
  match value with
  | .vstr s =>
    if jsTrim s = "" then .error (label ++ " is required and must be a non-empty string")
    else .ok s
  | _ => .error (label ++ " is required and must be a non-empty string")

/-- `assertPositiveInt` (validation.ts lines 12-22): a finite integer value
strictly greater than zero; anything else (wrong type, `NaN`, infinity,
non-integer, zero, negative) throws. -/
def assertPositiveInt (value : JsValue) (label : String) : Except String ℚ :=
  match value with
  | .vnum (.finite q) =>
    if q.den = 1 ∧ 0 < q then .ok q
    else .error (label ++ " must be a positive integer")
  | _ => .error (label ++ " must be a positive integer")

/-- `normalizeOptionalString` (validation.ts lines 36-40 and its copy in
handlers/items.ts lines 99-103): non-strings become `undefined`; strings are
trimmed, and a whitespace-only string becomes `undefined`. -/
def normalizeOptionalString (v : JsValue) : Option String :=
  match v with
  | .vstr s =>
    let trimmed := jsTrim s
    if 0 < trimmed.length then some trimmed else none
  | _ => none

/-- `handleGetBuild` (handlers/builds.ts lines 22-29): validate, then call
`client.getBuild(fullName, buildNumber)`. The `ok` value is that network
request's arguments — an `error` means no request was issued. -/
def handleGetBuild (args : JsValue) : Except String (String × ℚ) :=
  match assertNonEmptyString (getField args "fullName") "fullName" with
  | .error e => .error e
  | .ok fullName =>
    match assertPositiveInt (getField args "buildNumber") "buildNumber" with
    | .error e => .error e
    | .ok buildNumber => .ok (fullName, buildNumber)

/-- `handleGetBuildConsoleOutput` (handlers/builds.ts lines 37-44): same
validation, then `client.getBuildConsoleOutput`. -/
def handleGetBuildConsoleOutput (args : JsValue) : Except String (String × ℚ) :=
  match assertNonEmptyString (getField args "fullName") "fullName" with
  | .error e => .error e
  | .ok fullName =>
    match assertPositiveInt (getField args "buildNumber") "buildNumber" with
    | .error e => .error e
    | .ok buildNumber => .ok (fullName, buildNumber)

/-- `handleStopBuild` (handlers/builds.ts lines 61-69): same validation, then
`client.stopBuild`. -/
def handleStopBuild (args : JsValue) : Except String (String × ℚ) :=
  match assertNonEmptyString (getField args "fullName") "fullName" with
  | .error e => .error e
  | .ok fullName =>
    match assertPositiveInt (getField args "buildNumber") "buildNumber" with
    | .error e => .error e
    | .ok buildNumber => .ok (fullName, buildNumber)

/-- `handleQueryItems` (handlers/items.ts lines 64-75): normalise the three
pattern arguments, then call `client.queryItems`. -/
def handleQueryItemsParams (args : JsValue) : QueryItemsParams :=
  ⟨normalizeOptionalString (getField args "classPattern"),
   normalizeOptionalString (getField args "fullNamePattern"),
   normalizeOptionalString (getField args "colorPattern")⟩

def handleQueryItems (re : RegexEngine) (items : List JenkinsItem) (args : JsValue) :
    Except String (List JenkinsItem) :=
  queryItems re (handleQueryItemsParams args) items

/-! ### Dispatch layer (`executeTool`, part_002 lines 75-107) -/

/-- The MCP error codes used by `executeTool` (`NotFound`/`InvalidArguments`/
`Internal` in the spec's taxonomy). -/
inductive ErrCode where
  | methodNotFound
  | invalidParams
  | internalError
  deriving DecidableEq

structure McpErr where
  code : ErrCode
  message : String
  deriving DecidableEq

/-- What a handler can throw: a typed `McpError`, a JS `Error` (carrying its
message), or a non-`Error` value. -/
inductive Thrown where
  | mcp (e : McpErr)
  | jsError (message : String)
  | nonError

/-- The own keys of the tool registry (part_002 lines 37-65). -/
def toolNames : List String :=
  ["get_all_items", "get_item", "get_item_config", "query_items", "build_item",
   "get_all_nodes", "get_node", "get_node_config",
   "get_all_queue_items", "get_queue_item", "cancel_queue_item",
   "get_build", "get_build_console_output", "get_running_builds", "stop_build"]

/-- JS `String.prototype.toLowerCase` (ASCII-relevant part). -/
def jsToLowerCase (s : String) : String := String.mk (s.toList.map Char.toLower)

/-- The keyword heuristic of `executeTool` (part_002 line 101):
`message.toLowerCase().includes('required') || ...includes('invalid')`. -/
def validationKeyword (message : String) : Bool :=
  strContains (jsToLowerCase message) "required" ||
    strContains (jsToLowerCase message) "invalid"

/-- The own property names of `Object.prototype` (ES2023 §20.1.3 plus the
Annex B accessors and functions, all present on Node). The registry is a
plain object literal, so `registry[toolName]` resolves through the prototype
chain: each of these names yields a truthy inherited value — eleven built-in
functions and the `__proto__` accessor, whose getter returns
`Object.prototype` itself — never `undefined`. -/
def objectProtoNames : List String :=
  ["constructor", "hasOwnProperty", "isPrototypeOf", "propertyIsEnumerable",
   "toLocaleString", "toString", "valueOf", "__proto__",
   "__defineGetter__", "__defineSetter__", "__lookupGetter__", "__lookupSetter__"]

/-- The result of `await handler(client, args)` when `handler` is the value
`registry[toolName]` inherited from `Object.prototype`. Module code is
strict, so the call's `this` value is `undefined`; the thrown `TypeError`
messages are Node/V8's (the source's declared target runtime):
* `toString` ignores its arguments and returns `"[object Undefined]"`
  (ES2023 §20.1.3.6 step 1);
* `constructor` is the `Object` constructor called as a function, which
  returns its first argument — the client object — unchanged;
* `toLocaleString` reads `toString` off its `this` value (`undefined`) and
  throws;
* the `__proto__` accessor yields `Object.prototype` itself, a non-callable
  object, so the call `handler(client, args)` throws;
* the remaining built-ins (`valueOf`, `hasOwnProperty`, `isPrototypeOf`,
  `propertyIsEnumerable` and the four Annex B lookup/define functions)
  coerce their `this` value (`undefined`) to an object and throw. -/
def protoPropertyCall (toolName : String) : Except Thrown JsValue :=
  if toolName = "toString" then .ok (.vstr "[object Undefined]")
  else if toolName = "constructor" then .ok .vclient
  else if toolName = "toLocaleString" then
    .error (.jsError "Cannot read properties of undefined (reading 'toString')")
  else if toolName = "__proto__" then
    .error (.jsError "handler is not a function")
  else
    .error (.jsError "Cannot convert undefined or null to object")

/-- `error instanceof Error ? error.message : 'Unknown error'` (part_002
line 98): both `McpError` and a plain JS `Error` carry their message. -/
def thrownMessage : Thrown → String
  | .mcp e => e.message
  | .jsError m => m
  | .nonError => "Unknown error"

/-- The try/catch around `await handler(client, args)` (part_002 lines
91-106): a success passes through; an `McpError` is re-raised unmodified;
any other throw is classified by the keyword heuristic as `InvalidParams`
or wrapped as `InternalError` carrying the tool name. -/
def mapToolOutcome (toolName : String) : Except Thrown JsValue → Except McpErr JsValue
  | .ok v => .ok v
  | .error (.mcp e) => .error e
  | .error t =>
    if validationKeyword (thrownMessage t) = true then
      .error ⟨.invalidParams, thrownMessage t⟩
    else
      .error ⟨.internalError,
        "Failed to execute tool " ++ toolName ++ ": " ++ thrownMessage t⟩

/-- `executeTool` (part_002 lines 75-107). The registry's own handlers are
the oracle `run`; the lookup `registry[toolName]` resolves through the
prototype chain, so `!handler` only holds when `toolName` is neither an own
key nor a property name of `Object.prototype` — an inherited name is truthy
and the call dispatches `protoPropertyCall` instead of throwing
`MethodNotFound`. -/
def executeTool (run : String → JsValue → Except Thrown JsValue) (toolName : String)
    (args : JsValue) : Except McpErr JsValue :=
  if (toolNames.contains toolName || objectProtoNames.contains toolName) = false then
    .error ⟨.methodNotFound, "Unknown tool: " ++ toolName⟩
  else if isPlainObject args = false then
    .error ⟨.invalidParams, "Arguments must be an object"⟩
  else if toolNames.contains toolName then
    mapToolOutcome toolName (run toolName args)
  else
    mapToolOutcome toolName (protoPropertyCall toolName)

/-- The remote calls the three build handlers can make, as an oracle. -/
structure BuildsNet where
  getBuild : String → ℚ → Except Thrown JsValue
  getBuildConsoleOutput : String → ℚ → Except Thrown JsValue
  stopBuild : String → ℚ → Except Thrown JsValue

/-- The registry's dispatch into the embedded build handlers (other tools
delegate to the `other` oracle). A validation throw becomes a JS `Error` with
the validation message. -/
def runHandlers (net : BuildsNet) (other : String → JsValue → Except Thrown JsValue) :
    String → JsValue → Except Thrown JsValue := fun name args =>
  match name with
  | "get_build" =>
    match handleGetBuild args with
    | .ok (fn, n) => net.getBuild fn n
    | .error m => .error (.jsError m)
  | "get_build_console_output" =>
    match handleGetBuildConsoleOutput args with
    | .ok (fn, n) => net.getBuildConsoleOutput fn n
    | .error m => .error (.jsError m)
  | "stop_build" =>
    match handleStopBuild args with
    | .ok (fn, n) =>
      match net.stopBuild fn n with
      | .ok _ => .ok (.vobj [("success", .vbool true)])
      | .error t => .error t
    | .error m => .error (.jsError m)
  | _ => other name args

example : isPlainObject (.vobj [("a", .vnull)]) = true := by decide
example : isPlainObject (.varr []) = false := by decide
example : jsTrim "  a b  " = "a b" := by decide
example : validationKeyword "buildNumber must be a positive integer" = false := by decide
example : validationKeyword "fullName is required and must be a non-empty string" = true := by
  decide

/-- No registry key collides with a name inherited from `Object.prototype`,
so an own key always shadows the prototype chain and an inherited name is
never an own key. -/
lemma proto_shadow (name : String) (hproto : objectProtoNames.contains name = true) :
    toolNames.contains name = false := by
  have hmem : name ∈ objectProtoNames := by simpa using hproto
  fin_cases hmem <;> decide

/-- On an own registry key with a plain-object argument bag, `executeTool`
dispatches the registry handler and maps its outcome. -/
lemma executeTool_run (run : String → JsValue → Except Thrown JsValue) (name : String)
    (args : JsValue) (hown : toolNames.contains name = true)
    (hp : isPlainObject args = true) :
    executeTool run name args = mapToolOutcome name (run name args) := by
  unfold executeTool
  rw [if_neg (by rw [hown]; simp), if_neg (by rw [hp]; decide), if_pos hown]

/-- On a name inherited from `Object.prototype` with a plain-object argument
bag, `executeTool` dispatches the inherited value and maps its outcome. -/
lemma executeTool_proto (run : String → JsValue → Except Thrown JsValue) (name : String)
    (args : JsValue) (hproto : objectProtoNames.contains name = true)
    (hp : isPlainObject args = true) :
    executeTool run name args = mapToolOutcome name (protoPropertyCall name) := by
  unfold executeTool
  rw [if_neg (by rw [hproto]; simp), if_neg (by rw [hp]; decide),
    if_neg (by rw [proto_shadow name hproto]; decide)]

/-- An inherited `Object.prototype` member never throws an `McpError`. -/
lemma protoPropertyCall_not_mcp (name : String) (e : McpErr) :
    protoPropertyCall name ≠ .error (.mcp e) := by
  unfold protoPropertyCall
  split_ifs <;> simp


/-! ### C10 — `query_items` argument normalisation -/

lemma jsTrim_length_pos (s : String) (h : jsTrim s ≠ "") : 0 < (jsTrim s).length := by
  by_contra h0
  push_neg at h0
  have hz : (jsTrim s).data = [] := List.length_eq_zero.mp (Nat.le_zero.mp h0)
  exact h (String.ext hz)

lemma normalizeOptionalString_trimmed (s : String) (h : jsTrim s ≠ "") :
    normalizeOptionalString (.vstr s) = some (jsTrim s) := by
  simp [normalizeOptionalString, jsTrim_length_pos s h]

lemma mem_compileLog_class (re : RegexEngine) (p : QueryItemsParams) (x : String)
    (h : truthyPattern p.classPattern = [x]) : x ∈ (compileItemRegexesLog re p).2 := by
  unfold compileItemRegexesLog
  cases hc : compilePattern re p.classPattern with
  | mk rc lc =>
    have hlc : lc = [x] := by
      have hl := compilePattern_log re p.classPattern
      rw [hc] at hl
      simpa [h] using hl
    subst hlc
    cases rc with
    | error m => simp
    | ok c =>
      cases hn : compilePattern re p.fullNamePattern with
      | mk rn ln =>
        cases rn with
        | error m => simp
        | ok n =>
          cases hcol : compilePattern re p.colorPattern with
          | mk rcol lcol => cases rcol <;> simp

/-- C10: at the dispatch layer of `query_items`, a pattern argument that is
not a string or is whitespace-only is treated as absent — an absent filter
clause passes every item — and a non-empty string pattern is trimmed of
surrounding whitespace before being handed to the regex engine. -/
theorem handleQueryItems_normalization :
    (∀ v : JsValue, (∀ s, v ≠ .vstr s) → normalizeOptionalString v = none) ∧
    (∀ s : String, jsTrim s = "" → normalizeOptionalString (.vstr s) = none) ∧
    (∀ s : String, jsTrim s ≠ "" → normalizeOptionalString (.vstr s) = some (jsTrim s)) ∧
    (∀ v : String, fieldClausePasses none v = true) ∧
    (∀ c : Option String, colorClausePasses none c = true) ∧
    (∀ (re : RegexEngine) (items : List JenkinsItem) (args : JsValue) (s : String),
      getField args "classPattern" = .vstr s → jsTrim s ≠ "" →
      jsTrim s ∈ (queryItemsLog re (handleQueryItemsParams args) items).2.1) := by
  refine ⟨?_, ?_, ?_, fun _ => rfl, fun _ => rfl, ?_⟩
  · intro v h
    cases v with
    | vstr s => exact absurd rfl (h s)
    | vundefined => rfl
    | vnull => rfl
    | vbool b => rfl
    | vnum n => rfl
    | vobj f => rfl
    | varr e => rfl
    | vclient => rfl
  · intro s h
    simp [normalizeOptionalString, h]
  · exact normalizeOptionalString_trimmed
  · intro re items args s hget htrim
    have hclass : (handleQueryItemsParams args).classPattern = some (jsTrim s) := by
      simp [handleQueryItemsParams, hget, normalizeOptionalString_trimmed s htrim]
    have hmem : jsTrim s ∈ (compileItemRegexesLog re (handleQueryItemsParams args)).2 :=
      mem_compileLog_class re _ (jsTrim s) (by simp [truthyPattern, hclass, htrim])
    unfold queryItemsLog
    cases hlog : compileItemRegexesLog re (handleQueryItemsParams args) with
    | mk rr log =>
      rw [hlog] at hmem
      cases rr <;> simpa using hmem

/-- Witness for C10 at concrete arguments: a non-string pattern, a
whitespace-only pattern, and a padded pattern that is trimmed before being
compiled. -/
theorem handleQueryItems_normalization_witness :
    normalizeOptionalString (.vnum .nan) = none ∧
    normalizeOptionalString (.vstr "   ") = none ∧
    normalizeOptionalString (.vstr " x ") = some (jsTrim " x ") ∧
    jsTrim " x " ∈ (queryItemsLog (fun _ => .ok (fun _ => true))
      (handleQueryItemsParams (.vobj [("classPattern", .vstr " x ")])) []).2.1 := by
  refine ⟨handleQueryItems_normalization.1 _ (fun s h => JsValue.noConfusion h),
    handleQueryItems_normalization.2.1 _ (by decide),
    handleQueryItems_normalization.2.2.1 _ (by decide),
    handleQueryItems_normalization.2.2.2.2.2 _ [] _ " x " rfl (by decide)⟩


/-! ### C7 — build-number validation precedes the network call -/

/-- The build numbers `assertPositiveInt` accepts: a finite JS number that is
a positive integer. Its complement is the claim's "0, negative, non-integer,
or not a number". -/
def isPositiveIntNum (v : JsValue) : Prop :=
  ∃ q : ℚ, v = .vnum (.finite q) ∧ q.den = 1 ∧ 0 < q

lemma assertPositiveInt_fails (v : JsValue) (label : String) (h : ¬ isPositiveIntNum v) :
    assertPositiveInt v label = .error (label ++ " must be a positive integer") := by
  cases v with
  | vnum n =>
    cases n with
    | finite q =>
      unfold assertPositiveInt
      show (if q.den = 1 ∧ 0 < q then (.ok q : Except String ℚ)
        else .error (label ++ " must be a positive integer")) = _
      rw [if_neg]
      rintro ⟨h1, h2⟩
      exact h ⟨q, rfl, h1, h2⟩
    | nan => rfl
    | posInf => rfl
    | negInf => rfl
  | vundefined => rfl
  | vnull => rfl
  | vbool b => rfl
  | vstr s => rfl
  | vobj f => rfl
  | varr e => rfl
  | vclient => rfl

/-- C7 (amended): for every `get_build` invocation whose `buildNumber` is 0,
negative, non-integer, or not a number, the handler fails validation before
any network request is issued — the same positive-integer precondition guards
`get_build_console_output` and `stop_build` — and the dispatch layer surfaces
the failure as an `Internal` error (not `InvalidArguments`), since the message
`"buildNumber must be a positive integer"` contains neither `'required'` nor
`'invalid'`. -/
theorem getBuild_validation_precedes_network (args : JsValue)
    (hbad : ¬ isPositiveIntNum (getField args "buildNumber")) :
    (∃ e, handleGetBuild args = .error e) ∧
    (∃ e, handleGetBuildConsoleOutput args = .error e) ∧
    (∃ e, handleStopBuild args = .error e) ∧
    (∀ (net : BuildsNet) (other : String → JsValue → Except Thrown JsValue) (s : String),
      getField args "fullName" = .vstr s → jsTrim s ≠ "" → isPlainObject args = true →
      executeTool (runHandlers net other) "get_build" args =
        .error ⟨.internalError,
          "Failed to execute tool get_build: buildNumber must be a positive integer"⟩) := by
  have hpi := assertPositiveInt_fails (getField args "buildNumber") "buildNumber" hbad
  have hget : ∀ r, assertNonEmptyString (getField args "fullName") "fullName" = r →
      ∃ e, handleGetBuild args = .error e := by
    intro r hr
    cases r with
    | error e => exact ⟨e, by unfold handleGetBuild; rw [hr]⟩
    | ok fn =>
      exact ⟨"buildNumber must be a positive integer", by
        unfold handleGetBuild
        rw [hr, hpi]
        rfl⟩
  have hcons : ∀ r, assertNonEmptyString (getField args "fullName") "fullName" = r →
      ∃ e, handleGetBuildConsoleOutput args = .error e := by
    intro r hr
    cases r with
    | error e => exact ⟨e, by unfold handleGetBuildConsoleOutput; rw [hr]⟩
    | ok fn =>
      exact ⟨"buildNumber must be a positive integer", by
        unfold handleGetBuildConsoleOutput
        rw [hr, hpi]
        rfl⟩
  have hstop : ∀ r, assertNonEmptyString (getField args "fullName") "fullName" = r →
      ∃ e, handleStopBuild args = .error e := by
    intro r hr
    cases r with
    | error e => exact ⟨e, by unfold handleStopBuild; rw [hr]⟩
    | ok fn =>
      exact ⟨"buildNumber must be a positive integer", by
        unfold handleStopBuild
        rw [hr, hpi]
        rfl⟩
  refine ⟨hget _ rfl, hcons _ rfl, hstop _ rfl, ?_⟩
  intro net other s hfn htrim hplain
  have h1 : assertNonEmptyString (getField args "fullName") "fullName" = .ok s := by
    rw [hfn]
    show (if jsTrim s = ""
      then (.error ("fullName" ++ " is required and must be a non-empty string") :
        Except String String)
      else .ok s) = _
    rw [if_neg htrim]
  have h2 : handleGetBuild args = .error "buildNumber must be a positive integer" := by
    unfold handleGetBuild
    rw [h1, hpi]
    rfl
  have h3 : runHandlers net other "get_build" args =
      .error (.jsError "buildNumber must be a positive integer") := by
    show (match handleGetBuild args with
      | .ok (fn, n) => net.getBuild fn n
      | .error m => (.error (.jsError m) : Except Thrown JsValue)) = _
    rw [h2]
  rw [executeTool_run _ _ _ (by decide) hplain, h3]
  rfl

def argsNanBuild : JsValue :=
  .vobj [("fullName", .vstr "b"), ("buildNumber", .vnum .nan)]

def netUnit : BuildsNet :=
  ⟨fun _ _ => .ok .vundefined, fun _ _ => .ok .vundefined, fun _ _ => .ok .vundefined⟩

def otherUnit : String → JsValue → Except Thrown JsValue := fun _ _ => .ok .vundefined

/-- Witness for C7 at `buildNumber = NaN`. -/
theorem getBuild_validation_precedes_network_witness :
    (∃ e, handleGetBuild argsNanBuild = .error e) ∧
    (∃ e, handleGetBuildConsoleOutput argsNanBuild = .error e) ∧
    (∃ e, handleStopBuild argsNanBuild = .error e) ∧
    executeTool (runHandlers netUnit otherUnit) "get_build" argsNanBuild =
      .error ⟨.internalError,
        "Failed to execute tool get_build: buildNumber must be a positive integer"⟩ := by
  have hbad : ¬ isPositiveIntNum (getField argsNanBuild "buildNumber") := by
    rintro ⟨q, hq, -⟩
    rw [show getField argsNanBuild "buildNumber" = .vnum .nan from rfl] at hq
    injection hq with h'
    exact JsNum.noConfusion h'
  obtain ⟨e1, e2, e3, h4⟩ := getBuild_validation_precedes_network argsNanBuild hbad
  exact ⟨e1, e2, e3, h4 netUnit otherUnit "b" rfl (by decide) rfl⟩

def argsNegBuild : JsValue :=
  .vobj [("fullName", .vstr "a"), ("buildNumber", .vnum (.finite (-1)))]

/-- Counterexample to C7 as stated: with `buildNumber = -1` the validation
failure surfaces as `Internal`, not `InvalidArguments`. -/
theorem getBuild_invalidParams_counterexample :
    handleGetBuild argsNegBuild = .error "buildNumber must be a positive integer" ∧
    executeTool (runHandlers netUnit otherUnit) "get_build" argsNegBuild =
      .error ⟨.internalError,
        "Failed to execute tool get_build: buildNumber must be a positive integer"⟩ ∧
    ErrCode.internalError ≠ ErrCode.invalidParams :=
  ⟨rfl, rfl, by decide⟩

/-! ### C2 — dispatch-layer error mapping -/

/-- C2 (amended): an operation name that is neither a registry key nor a
property name inherited from `Object.prototype` fails with `NotFound`; an
inherited name is looked up as a truthy value and never yields `NotFound` —
`toString` even dispatches the inherited function and returns the string
`"[object Undefined]"` as a success; a non-object argument bag fails with
`InvalidArguments`; a handler `McpError` is re-raised unmodified; a handler
`Error` whose message contains `'required'` or `'invalid'` (case-insensitive)
→ `InvalidArguments`; any other handler failure — including validation
messages such as `"... must be a positive integer"` — is wrapped into an
`Internal` error carrying the operation name and the underlying message. -/
theorem executeTool_error_mapping :
    (∀ (run : String → JsValue → Except Thrown JsValue) (name : String) (args : JsValue),
      toolNames.contains name = false → objectProtoNames.contains name = false →
      executeTool run name args = .error ⟨.methodNotFound, "Unknown tool: " ++ name⟩) ∧
    (∀ run name args, (toolNames.contains name || objectProtoNames.contains name) = true →
      isPlainObject args = false →
      executeTool run name args = .error ⟨.invalidParams, "Arguments must be an object"⟩) ∧
    (∀ run name args v, toolNames.contains name = true → isPlainObject args = true →
      run name args = .ok v → executeTool run name args = .ok v) ∧
    (∀ run name args e, toolNames.contains name = true → isPlainObject args = true →
      run name args = .error (.mcp e) → executeTool run name args = .error e) ∧
    (∀ run name args m, toolNames.contains name = true → isPlainObject args = true →
      run name args = .error (.jsError m) →
      (validationKeyword m = true →
        executeTool run name args = .error ⟨.invalidParams, m⟩) ∧
      (validationKeyword m = false →
        executeTool run name args =
          .error ⟨.internalError, "Failed to execute tool " ++ name ++ ": " ++ m⟩)) ∧
    (∀ run name args, toolNames.contains name = true → isPlainObject args = true →
      run name args = .error .nonError →
      executeTool run name args =
        .error ⟨.internalError, "Failed to execute tool " ++ name ++ ": Unknown error"⟩) ∧
    (∀ run args, isPlainObject args = true →
      executeTool run "toString" args = .ok (.vstr "[object Undefined]")) ∧
    (∀ run name args, objectProtoNames.contains name = true → isPlainObject args = true →
      ∀ m, executeTool run name args ≠ .error ⟨.methodNotFound, m⟩) := by
  refine ⟨?_, ?_, ?_, ?_, ?_, ?_, ?_, ?_⟩
  · intro run name args h1 h2
    unfold executeTool
    rw [if_pos (by rw [h1, h2]; decide)]
  · intro run name args hor hp
    unfold executeTool
    rw [if_neg (by rw [hor]; decide), if_pos hp]
  · intro run name args v hc hp hr
    rw [executeTool_run run name args hc hp, hr]
    rfl
  · intro run name args e hc hp hr
    rw [executeTool_run run name args hc hp, hr]
    rfl
  · intro run name args m hc hp hr
    constructor <;> intro hk <;>
      (rw [executeTool_run run name args hc hp, hr]
       show (if validationKeyword m = true
         then (.error ⟨.invalidParams, m⟩ : Except McpErr JsValue)
         else .error ⟨.internalError,
           "Failed to execute tool " ++ name ++ ": " ++ m⟩) = _)
    · rw [if_pos hk]
    · rw [if_neg (by simp [hk])]
  · intro run name args hc hp hr
    rw [executeTool_run run name args hc hp, hr]
    show (if validationKeyword "Unknown error" = true
      then (.error ⟨.invalidParams, "Unknown error"⟩ : Except McpErr JsValue)
      else .error ⟨.internalError,
        "Failed to execute tool " ++ name ++ ": " ++ "Unknown error"⟩) = _
    rw [if_neg (by decide), String.append_assoc]
    simp
  · intro run args hp
    rw [executeTool_proto run "toString" args (by decide) hp]
    rfl
  · intro run name args hproto hp m
    rw [executeTool_proto run name args hproto hp]
    cases hpc : protoPropertyCall name with
    | ok v => simp [mapToolOutcome]
    | error t =>
      cases t with
      | mcp e => exact absurd hpc (protoPropertyCall_not_mcp name e)
      | jsError s =>
        simp only [mapToolOutcome]
        split_ifs <;> simp
      | nonError =>
        simp only [mapToolOutcome]
        split_ifs <;> simp

def argsZeroBuild : JsValue :=
  .vobj [("fullName", .vstr "a"), ("buildNumber", .vnum (.finite 0))]

/-- Counterexample to C2 as stated, on two prongs. A validation failure
inside the `get_build` handler (`buildNumber = 0`) is not mapped to
`InvalidArguments` — its message lacks the `'required'`/`'invalid'`
keywords, so the dispatch layer wraps it as `Internal`. And the operation
name `"toString"`, absent from the registry's own keys, does not fail with
`NotFound`: `registry["toString"]` finds the function inherited from
`Object.prototype`, and its result is returned as a success. -/
theorem executeTool_validation_to_internal_counterexample :
    handleGetBuild argsZeroBuild = .error "buildNumber must be a positive integer" ∧
    executeTool (runHandlers netUnit otherUnit) "get_build" argsZeroBuild =
      .error ⟨.internalError,
        "Failed to execute tool get_build: buildNumber must be a positive integer"⟩ ∧
    ErrCode.internalError ≠ ErrCode.invalidParams ∧
    toolNames.contains "toString" = false ∧
    executeTool (runHandlers netUnit otherUnit) "toString" (.vobj []) =
      .ok (.vstr "[object Undefined]") :=
  ⟨rfl, rfl, by decide, by decide, rfl⟩

/-- Witness for C2's amended mapping at concrete inputs for each branch. -/
theorem executeTool_error_mapping_witness :
    executeTool otherUnit "no_such_tool" (.vobj []) =
      .error ⟨.methodNotFound, "Unknown tool: no_such_tool"⟩ ∧
    executeTool otherUnit "get_item" (.varr []) =
      .error ⟨.invalidParams, "Arguments must be an object"⟩ ∧
    executeTool otherUnit "get_item" (.vobj []) = .ok .vundefined ∧
    executeTool (fun _ _ => .error (.mcp ⟨.invalidParams, "bad field"⟩)) "get_item"
      (.vobj []) = .error ⟨.invalidParams, "bad field"⟩ ∧
    executeTool (fun _ _ => .error (.jsError "name is required")) "get_item" (.vobj []) =
      .error ⟨.invalidParams, "name is required"⟩ ∧
    executeTool (fun _ _ => .error (.jsError "boom")) "get_item" (.vobj []) =
      .error ⟨.internalError, "Failed to execute tool get_item: boom"⟩ ∧
    executeTool (fun _ _ => .error .nonError) "get_item" (.vobj []) =
      .error ⟨.internalError, "Failed to execute tool get_item: Unknown error"⟩ ∧
    executeTool otherUnit "toString" (.vobj []) = .ok (.vstr "[object Undefined]") ∧
    executeTool otherUnit "valueOf" (.vobj []) ≠
      .error ⟨.methodNotFound, "Unknown tool: valueOf"⟩ := by
  refine ⟨executeTool_error_mapping.1 otherUnit "no_such_tool" (.vobj []) (by decide)
      (by decide),
    executeTool_error_mapping.2.1 otherUnit "get_item" (.varr []) (by decide) (by decide),
    executeTool_error_mapping.2.2.1 otherUnit "get_item" (.vobj []) .vundefined (by decide)
      (by decide) rfl,
    executeTool_error_mapping.2.2.2.1 _ "get_item" (.vobj []) ⟨.invalidParams, "bad field"⟩
      (by decide) (by decide) rfl,
    (executeTool_error_mapping.2.2.2.2.1 _ "get_item" (.vobj []) "name is required"
      (by decide) (by decide) rfl).1 (by decide),
    (executeTool_error_mapping.2.2.2.2.1 _ "get_item" (.vobj []) "boom"
      (by decide) (by decide) rfl).2 (by decide),
    executeTool_error_mapping.2.2.2.2.2.1 _ "get_item" (.vobj []) (by decide) (by decide)
      rfl,
    executeTool_error_mapping.2.2.2.2.2.2.1 otherUnit (.vobj []) (by decide),
    executeTool_error_mapping.2.2.2.2.2.2.2 otherUnit "valueOf" (.vobj []) (by decide)
      (by decide) "Unknown tool: valueOf"⟩


/-! ## C3 — crumb issuer: a failed fetch is never retried
Source: `createCrumbIssuer` in `src/src/client/http-client.ts` (lines
180-291); `JenkinsClient.getCrumb`/`addCrumbHeaders` in `src/unnamed/part_004`
(lines 65-119) is the special case with no TTL. The HTTP GET to
`/crumbIssuer/api/json` is the `fetch` oracle; the returned `Bool` of each
step records whether that request was issued. -/

structure JenkinsCrumb where
  crumb : String
  field : String
  deriving DecidableEq

/-- The cache cell: `value = none` is the cached-`null` sentinel ("CSRF not
available"), recorded together with `Date.now()`. -/
structure CachedCrumb where
  value : Option JenkinsCrumb
  cachedAt : Nat
  deriving DecidableEq

/-- The closure state: `cached = none` is `undefined` (not yet fetched). -/
structure CrumbState where
  cached : Option CachedCrumb
  deriving DecidableEq

/-- `isExpired` (http-client.ts lines 207-210); JS `if (!cacheTtlMs)` treats
both an absent and a zero TTL as "never expires". -/
def isExpired (cacheTtlMs : Option Nat) (now : Nat) (e : CachedCrumb) : Bool :=
  match cacheTtlMs with
  | none => false
  | some t => if t = 0 then false else decide (t < now - e.cachedAt)

/-- `getCached` (http-client.ts lines 212-216). -/
def getCached (cacheTtlMs : Option Nat) (now : Nat) (st : CrumbState) :
    Option (Option JenkinsCrumb) :=
  match st.cached with
  | none => none
  | some e => if isExpired cacheTtlMs now e then none else some e.value

/-- `setCached` (http-client.ts lines 218-220). -/
def setCached (v : Option JenkinsCrumb) (now : Nat) : CrumbState :=
  ⟨some ⟨v, now⟩⟩

/-- `getCrumb` (http-client.ts lines 226-255): returns the cached value when
present; otherwise issues the HTTP request (`fetch`), caching the crumb on
success and the `null` sentinel on failure. The `Bool` records whether the
request was issued. -/
def getCrumbStep (cacheTtlMs : Option Nat) (st : CrumbState) (now : Nat)
    (fetch : Except Unit JenkinsCrumb) : Option JenkinsCrumb × CrumbState × Bool :=
  match getCached cacheTtlMs now st with
  | some v => (v, st, false)
  | none =>
    match fetch with
    | .ok c => (some c, setCached (some c) now, true)
    | .error _ => (none, setCached none now, true)

structure RequestConfig where
  headers : List (String × String)
  deriving DecidableEq

/-- JS `{ ...config.headers, [field]: crumb }`: set-or-overwrite one header. -/
def setHeader (cfg : RequestConfig) (k v : String) : RequestConfig :=
  ⟨(cfg.headers.filter (fun kv => !(kv.1 == k))) ++ [(k, v)]⟩

/-- `addCrumbHeaders` (http-client.ts lines 260-271): resolve the crumb, pass
the config through unchanged when there is none, otherwise inject the header. -/
def addCrumbHeadersStep (cacheTtlMs : Option Nat) (st : CrumbState) (now : Nat)
    (fetch : Except Unit JenkinsCrumb) (config : RequestConfig) :
    RequestConfig × CrumbState × Bool :=
  match getCrumbStep cacheTtlMs st now fetch with
  | (none, st2, requested) => (config, st2, requested)
  | (some c, st2, requested) => (setHeader config c.field c.crumb, st2, requested)

/-- One client-lifetime operation against the crumb issuer (no `reset`). -/
inductive CrumbOp where
  | getCrumbOp (now : Nat) (fetch : Except Unit JenkinsCrumb)
  | addHeadersOp (now : Nat) (fetch : Except Unit JenkinsCrumb) (config : RequestConfig)

/-- Run a sequence of operations; collect, per operation, whether an HTTP
request was issued and (for `addHeaders`) the returned config. -/
def runCrumbOps (cacheTtlMs : Option Nat) (st : CrumbState) :
    List CrumbOp → CrumbState × List (Bool × Option RequestConfig)
  | [] => (st, [])
  | .getCrumbOp now fetch :: ops =>
    match getCrumbStep cacheTtlMs st now fetch with
    | (_, st2, requested) =>
      match runCrumbOps cacheTtlMs st2 ops with
      | (stf, outs) => (stf, (requested, none) :: outs)
  | .addHeadersOp now fetch config :: ops =>
    match addCrumbHeadersStep cacheTtlMs st now fetch config with
    | (cfg, st2, requested) =>
      match runCrumbOps cacheTtlMs st2 ops with
      | (stf, outs) => (stf, (requested, some cfg) :: outs)

/-- C3: with no TTL configured, a failed fetch (from the unresolved state)
caches the `null` sentinel; from that state, for the rest of the client's
lifetime (any operation sequence without a reset), no operation issues
another HTTP request, every `addCrumbHeaders` call returns its input config
unchanged, and the state never changes. -/
theorem crumbIssuer_no_refetch_after_failure :
    (∀ (now : Nat) (u : Unit),
      getCrumbStep none ⟨none⟩ now (.error u) = (none, ⟨some ⟨none, now⟩⟩, true)) ∧
    (∀ (st : CrumbState) (t0 : Nat), st.cached = some ⟨none, t0⟩ →
      ∀ ops : List CrumbOp,
        runCrumbOps none st ops =
          (st, ops.map (fun op =>
            match op with
            | .getCrumbOp _ _ => (false, none)
            | .addHeadersOp _ _ config => (false, some config)))) := by
  constructor
  · intro now u
    rfl
  · intro st t0 hst ops
    have hcached : ∀ now, getCached none now st = some none := by
      intro now
      simp [getCached, hst, isExpired]
    induction ops with
    | nil => rfl
    | cons op rest ih =>
      cases op with
      | getCrumbOp now fetch =>
        simp only [runCrumbOps, getCrumbStep, hcached now, ih, List.map_cons]
      | addHeadersOp now fetch config =>
        simp only [runCrumbOps, addCrumbHeadersStep, getCrumbStep, hcached now, ih,
          List.map_cons]

/-- Witness for C3: one failed fetch, then an `addCrumbHeaders` and a
`getCrumb` — no further request, config passed through unchanged. -/
theorem crumbIssuer_no_refetch_after_failure_witness :
    getCrumbStep none ⟨none⟩ 5 (.error ()) = (none, ⟨some ⟨none, 5⟩⟩, true) ∧
    runCrumbOps none ⟨some ⟨none, 5⟩⟩
      [.addHeadersOp 10 (.ok ⟨"c", "f"⟩) ⟨[("a", "b")]⟩,
       .getCrumbOp 11 (.ok ⟨"c", "f"⟩)] =
      (⟨some ⟨none, 5⟩⟩, [(false, some ⟨[("a", "b")]⟩), (false, none)]) :=
  ⟨crumbIssuer_no_refetch_after_failure.1 5 (),
   crumbIssuer_no_refetch_after_failure.2 ⟨some ⟨none, 5⟩⟩ 5 rfl
     [.addHeadersOp 10 (.ok ⟨"c", "f"⟩) ⟨[("a", "b")]⟩,
      .getCrumbOp 11 (.ok ⟨"c", "f"⟩)]⟩

/-! ## C9 — `getRunningBuilds`
Source: `BuildsApi.getRunningBuilds` (`src/unnamed/part_003` lines 77-96) and
its twin `JenkinsClient.getRunningBuilds` (`src/unnamed/part_004` lines
312-330). The request's `tree` selection
`jobs[fullName,lastBuild[number,url,building,timestamp,duration]]` carries
only each job's last build — the input type mirrors that: no deeper build
history exists to inspect. -/

/-- A job's `lastBuild` as selected by the `tree` query. -/
structure LastBuild where
  number : Int
  url : String
  building : Option Bool
  timestamp : Option Int
  duration : Option Int
  deriving DecidableEq

structure JobEntry where
  fullName : String
  lastBuild : Option LastBuild
  deriving DecidableEq

/-- `{ ...lastBuild, fullDisplayName }`: the pushed element. -/
structure RunningBuild where
  build : LastBuild
  fullDisplayName : String
  deriving DecidableEq

/-- `getRunningBuilds` (part_003 lines 84-95): keep each job whose last build
is truthy-`building` (`lastBuild?.building`), spreading the build and adding
the synthesized display name. -/
def getRunningBuilds (jobs : List JobEntry) : List RunningBuild :=
  match jobs with
  | [] => []
  | job :: rest =>
    match job.lastBuild with
    | some lastBuild =>
      if lastBuild.building = some true then
        ⟨lastBuild, job.fullName ++ " #" ++ toString lastBuild.number⟩ ::
          getRunningBuilds rest
      else getRunningBuilds rest
    | none => getRunningBuilds rest

lemma runningBuildFn_eq_some_iff (job : JobEntry) (rb : RunningBuild) :
    (match job.lastBuild with
      | some b =>
        if b.building = some true then
          some (⟨b, job.fullName ++ " #" ++ toString b.number⟩ : RunningBuild)
        else none
      | none => none) = some rb ↔
    (job.lastBuild = some rb.build ∧ rb.build.building = some true ∧
      rb.fullDisplayName = job.fullName ++ " #" ++ toString rb.build.number) := by
  obtain ⟨build, name⟩ := rb
  cases hlb : job.lastBuild with
  | none => simp
  | some b =>
    show (if b.building = some true then
        some (⟨b, job.fullName ++ " #" ++ toString b.number⟩ : RunningBuild)
      else none) = some ⟨build, name⟩ ↔ _
    by_cases hb : b.building = some true
    · rw [if_pos hb]
      constructor
      · intro h
        simp only [Option.some.injEq, RunningBuild.mk.injEq] at h
        obtain ⟨rfl, rfl⟩ := h
        exact ⟨rfl, hb, rfl⟩
      · rintro ⟨hsb, -, hname⟩
        injection hsb with h2
        subst h2
        have hname' : name = job.fullName ++ " #" ++ toString b.number := hname
        subst hname'
        rfl
    · rw [if_neg hb]
      constructor
      · intro h
        exact Option.noConfusion h
      · rintro ⟨hsb, hbb, -⟩
        injection hsb with h2
        subst h2
        exact absurd hbb hb

/-- C9: `getRunningBuilds` returns exactly the jobs' last builds whose
`building` flag is set (inspecting only each job's `lastBuild`), in order,
each carrying the synthesized display name
`"<job full name> #<build number>"`. -/
theorem getRunningBuilds_spec (jobs : List JobEntry) :
    getRunningBuilds jobs = jobs.filterMap (fun job =>
      match job.lastBuild with
      | some b =>
        if b.building = some true then
          some ⟨b, job.fullName ++ " #" ++ toString b.number⟩
        else none
      | none => none) ∧
    (∀ rb : RunningBuild, rb ∈ getRunningBuilds jobs ↔
      ∃ job ∈ jobs, job.lastBuild = some rb.build ∧ rb.build.building = some true ∧
        rb.fullDisplayName = job.fullName ++ " #" ++ toString rb.build.number) := by
  have heq : ∀ js : List JobEntry, getRunningBuilds js = js.filterMap (fun job =>
      match job.lastBuild with
      | some b =>
        if b.building = some true then
          some ⟨b, job.fullName ++ " #" ++ toString b.number⟩
        else none
      | none => none) := by
    intro js
    induction js with
    | nil => rfl
    | cons job rest ih =>
      cases hlb : job.lastBuild with
      | none => simp [getRunningBuilds, List.filterMap_cons, hlb, ih]
      | some b =>
        by_cases hb : b.building = some true
        · simp [getRunningBuilds, List.filterMap_cons, hlb, hb, ih]
        · simp [getRunningBuilds, List.filterMap_cons, hlb, hb, ih]
  refine ⟨heq jobs, ?_⟩
  intro rb
  rw [heq jobs, List.mem_filterMap]
  exact exists_congr fun job =>
    and_congr_right fun _ => runningBuildFn_eq_some_iff job rb

end JenkinsMCP
